import Mathlib

/-!
# Verification of the monad-dashboard telemetry core

Shallow embedding of the Go backend of `eungu0920/monad-dashboard`
(consensus tracker, Prometheus rate derivation, waterfall generator,
block subscriber TPS accessors, Firedancer broadcast tick), together
with proofs and refutations of the specified properties.

Machine integers are modelled as `Nat`/`Int` with explicit `% 2^64`
where Go's `uint64` wrap-around matters; Go `float64` arithmetic is
modelled over `ℚ`; Go maps keyed by `uint64` are modelled as
association lists with no duplicate keys.
-/

namespace MonadDashboard


/-- `2^64`, the modulus of Go's `uint64` arithmetic. -/
def U64MOD : Nat := 2 ^ 64

/-- Go `uint64` subtraction `a - b` (wrap-around), for `a b : Nat`
representing `uint64` values (i.e. both `< U64MOD`). -/
def sub64 (a b : Nat) : Nat := (a + (U64MOD - b % U64MOD)) % U64MOD

/-! ## Consensus tracker (`backend/consensus_tracker.go`)

The Go `Phase` field is a `string` ranging over `"proposed"`,
`"voted"`, `"finalized"`; we embed it as an inductive type and keep
the string rendering in `phaseString` (used by `GetBlockPhase`, which
in Go returns the raw string, `"unknown"` for untracked blocks). -/

inductive Phase where
  | proposed
  | voted
  | finalized
deriving DecidableEq

def phaseString : Phase → String
  | .proposed => "proposed"
  | .voted => "voted"
  | .finalized => "finalized"

/-- Embedding of Go `BlockConsensusState`.  Wall-clock values
(`time.Now()`) are threaded into each operation as an abstract
`now : Nat`. -/
structure BlockConsensusState where
  blockNumber : Nat
  blockHash : String
  phase : Phase
  proposedAt : Nat
  votedAt : Option Nat
  finalizedAt : Option Nat
  txCount : Int
deriving DecidableEq

/-- Embedding of Go `ConsensusTracker`.  The `blocks` map is an
association list with (invariantly) no duplicate keys. -/
structure ConsensusTracker where
  blocks : List (Nat × BlockConsensusState)
  currentBlock : Nat
  finalizedBlock : Nat
  maxHistory : Nat
deriving DecidableEq

/-- `InitializeConsensusTracker`: empty map, `maxHistory = 20`,
zero-valued `currentBlock` and `finalizedBlock`. -/
def initTracker : ConsensusTracker :=
  { blocks := [], currentBlock := 0, finalizedBlock := 0, maxHistory := 20 }

/-- Go map read `ct.blocks[blockNum]` (with the `exists` flag encoded
as `Option`). -/
def lookupBlock (l : List (Nat × BlockConsensusState)) (k : Nat) :
    Option BlockConsensusState :=
  (l.find? (fun p => p.1 = k)).map Prod.snd

/-- In-place update of the entry with key `k` (Go mutates the block
through the map's pointer). -/
def mapUpdate (k : Nat) (f : BlockConsensusState → BlockConsensusState)
    (l : List (Nat × BlockConsensusState)) : List (Nat × BlockConsensusState) :=
  l.map (fun p => if p.1 = k then (p.1, f p.2) else p)

/-- The in-place mutation of a `PROPOSED` block to `VOTED` performed
by the first half of `updatePhases`. -/
def toVoted (now : Nat) (b : BlockConsensusState) : BlockConsensusState :=
  if b.phase = .proposed then { b with phase := .voted, votedAt := some now }
  else b

/-- The in-place mutation of a block to `FINALIZED` performed by the
second half of `updatePhases`. -/
def toFinalized (now : Nat) (b : BlockConsensusState) : BlockConsensusState :=
  { b with phase := .finalized, finalizedAt := some now }

/-- First half of `updatePhases`: if the current block number is at
least 1, block `N-1` moves from PROPOSED to VOTED. -/
def votedStep (now currentBlockNum : Nat) (ct : ConsensusTracker) :
    ConsensusTracker :=
  if 1 ≤ currentBlockNum then
    { ct with blocks := mapUpdate (currentBlockNum - 1) (toVoted now) ct.blocks }
  else ct

/-- Second half of `updatePhases`: if the current block number is at
least 2 and block `N-2` is tracked and not already FINALIZED, it moves
to FINALIZED and `finalizedBlock` is set to it. -/
def finalStep (now currentBlockNum : Nat) (ct : ConsensusTracker) :
    ConsensusTracker :=
  if 2 ≤ currentBlockNum then
    match lookupBlock ct.blocks (currentBlockNum - 2) with
    | some b =>
        if b.phase ≠ .finalized then
          { ct with
            blocks := mapUpdate (currentBlockNum - 2) (toFinalized now) ct.blocks,
            finalizedBlock := currentBlockNum - 2 }
        else ct
    | none => ct
  else ct

/-- `updatePhases`: on current block `N`, move block `N-1` from
PROPOSED to VOTED, then block `N-2` (if not already FINALIZED) to
FINALIZED, updating `finalizedBlock`. -/
def updatePhases (now : Nat) (currentBlockNum : Nat)
    (ct : ConsensusTracker) : ConsensusTracker :=
  finalStep now currentBlockNum (votedStep now currentBlockNum ct)

/-- `cleanupOldBlocks`: no-op while `len(blocks) ≤ maxHistory`;
otherwise delete every key below `currentBlock - maxHistory`
(Go `uint64` subtraction, hence `sub64`). -/
def cleanupOldBlocks (ct : ConsensusTracker) : ConsensusTracker :=
  if ct.blocks.length ≤ ct.maxHistory then ct
  else
    let threshold := sub64 ct.currentBlock ct.maxHistory
    { ct with blocks := ct.blocks.filter (fun p => ¬ p.1 < threshold) }

/-- `if blockNum > ct.currentBlock { ct.currentBlock = blockNum }`. -/
def bumpCurrent (blockNum : Nat) (ct : ConsensusTracker) : ConsensusTracker :=
  if ct.currentBlock < blockNum then { ct with currentBlock := blockNum } else ct

/-- The freshly proposed block state. -/
def mkProposed (now blockNum : Nat) (hash : String) (txCount : Int) :
    BlockConsensusState :=
  { blockNumber := blockNum, blockHash := hash, phase := .proposed,
    proposedAt := now, votedAt := none, finalizedAt := none,
    txCount := txCount }

/-- Create the block state at PROPOSED if the key is absent. -/
def insertIfAbsent (now blockNum : Nat) (hash : String) (txCount : Int)
    (ct : ConsensusTracker) : ConsensusTracker :=
  if (lookupBlock ct.blocks blockNum).isNone then
    { ct with blocks := (blockNum, mkProposed now blockNum hash txCount) :: ct.blocks }
  else ct

/-- `OnBlockProposed`: raise `currentBlock`, insert the block at
PROPOSED if absent, propagate phases, clean up. -/
def OnBlockProposed (now : Nat) (blockNum : Nat) (hash : String)
    (txCount : Int) (ct : ConsensusTracker) : ConsensusTracker :=
  cleanupOldBlocks (updatePhases now blockNum
    (insertIfAbsent now blockNum hash txCount (bumpCurrent blockNum ct)))

/-- `OnBlockVoted`: if tracked, set the phase to VOTED (the Go code
performs no monotonicity check). -/
def forceVoted (now : Nat) (b : BlockConsensusState) : BlockConsensusState :=
  { b with phase := .voted, votedAt := some now }

def OnBlockVoted (now : Nat) (blockNum : Nat) (ct : ConsensusTracker) :
    ConsensusTracker :=
  match lookupBlock ct.blocks blockNum with
  | some _ =>
      { ct with blocks := mapUpdate blockNum (forceVoted now) ct.blocks }
  | none => ct

/-- `OnBlockFinalized`: if tracked, set the phase to FINALIZED and
raise `finalizedBlock`. -/
def OnBlockFinalized (now : Nat) (blockNum : Nat) (ct : ConsensusTracker) :
    ConsensusTracker :=
  match lookupBlock ct.blocks blockNum with
  | some _ =>
      { ct with
        blocks := mapUpdate blockNum (toFinalized now) ct.blocks,
        finalizedBlock := if ct.finalizedBlock < blockNum then blockNum
          else ct.finalizedBlock }
  | none => ct

/-- `GetBlockPhase`: the phase string of a tracked block, `"unknown"`
otherwise. -/
def GetBlockPhase (ct : ConsensusTracker) (blockNum : Nat) : String :=
  match lookupBlock ct.blocks blockNum with
  | some b => phaseString b.phase
  | none => "unknown"

/-- One mutating tracker operation (the three public entry points). -/
inductive TrackerOp where
  | proposed (now blockNum : Nat) (hash : String) (txCount : Int)
  | voted (now blockNum : Nat)
  | finalized (now blockNum : Nat)
deriving DecidableEq

def TrackerOp.blockNum : TrackerOp → Nat
  | .proposed _ n _ _ => n
  | .voted _ n => n
  | .finalized _ n => n

def applyOp (ct : ConsensusTracker) : TrackerOp → ConsensusTracker
  | .proposed now n h c => OnBlockProposed now n h c ct
  | .voted now n => OnBlockVoted now n ct
  | .finalized now n => OnBlockFinalized now n ct

/-- Run a sequence of tracker operations in order. -/
def runOps (ct : ConsensusTracker) (ops : List TrackerOp) : ConsensusTracker :=
  ops.foldl applyOp ct

/-- A gap-free ascending observation run: `OnBlockProposed` on block
numbers `b, b+1, …, b+k` in order, starting from the fresh tracker,
with arbitrary per-block wall-clock values, hashes and tx counts. -/
def runConsec (time : Nat → Nat) (hash : Nat → String) (tx : Nat → Int)
    (b : Nat) : Nat → ConsensusTracker
  | 0 => OnBlockProposed (time b) b (hash b) (tx b) initTracker
  | k + 1 =>
      OnBlockProposed (time (b + (k + 1))) (b + (k + 1)) (hash (b + (k + 1)))
        (tx (b + (k + 1))) (runConsec time hash tx b k)

/-- Numeric rank of a phase along PROPOSED → VOTED → FINALIZED. -/
def phaseRank : Phase → Nat
  | .proposed => 0
  | .voted => 1
  | .finalized => 2

/-- Structural invariant of reachable tracker states. -/
structure TrackerWF (ct : ConsensusTracker) : Prop where
  nodup : (ct.blocks.map Prod.fst).Nodup
  keysLe : ∀ p ∈ ct.blocks, p.1 ≤ ct.currentBlock
  currentLt : ct.currentBlock < U64MOD
  maxHist : ct.maxHistory = 20

/-- Reachability invariant: well-formed and at most `maxHistory + 1`
tracked entries. -/
def TrackerInv (ct : ConsensusTracker) : Prop :=
  TrackerWF ct ∧ ct.blocks.length ≤ ct.maxHistory + 1

/-! ### Gap-free runs: phase characterization -/

/-- The phase a tracked block `m` must have after a gap-free run of
observations `b, …, b + k`. -/
def consecPhase (b k m : Nat) : Phase :=
  if m = b + k then .proposed else if m + 1 = b + k then .voted else .finalized

/-- Full characterization of the tracker state after the gap-free run
`b, b+1, …, b+k`. -/
structure ConsecChar (b k : Nat) (ct : ConsensusTracker) : Prop where
  current : ct.currentBlock = b + k
  maxHist : ct.maxHistory = 20
  nodup : (ct.blocks.map Prod.fst).Nodup
  keysIn : ∀ p ∈ ct.blocks, b ≤ p.1 ∧ p.1 ≤ b + k
  top : ∃ st, lookupBlock ct.blocks (b + k) = some st
  phases : ∀ m st, lookupBlock ct.blocks m = some st →
    st.phase = consecPhase b k m

/-! ## Prometheus collector (`parseMetrics`, first collector variant in
the repository)

Go `float64` values are modelled over `ℚ`; the `time.Time` bookkeeping
is abstracted into the wall-clock delta `timeDiff` (seconds) passed to
the rate step. -/

/-- Embedding of the Go `PrometheusMetrics` struct (numeric fields;
the two `time.Time` fields are handled as an explicit delta). -/
structure PrometheusMetrics where
  TxCommits : ℚ
  TxCommitsTotal : ℚ
  TPS60s : ℚ
  BlocksCommitted : ℚ
  InsertOwnedTxsTotal : ℚ
  InsertForwardedTxsTotal : ℚ
  DropInvalidSignatureTotal : ℚ
  DropNonceTooLowTotal : ℚ
  DropFeeTooLowTotal : ℚ
  DropInsufficientBalanceTotal : ℚ
  DropPoolFullTotal : ℚ
  PendingTxs : ℚ
  TrackedTxs : ℚ
  InsertOwnedTxsRate : ℚ
  InsertForwardedTxsRate : ℚ
  DropInvalidSignatureRate : ℚ
  DropNonceTooLowRate : ℚ
  DropFeeTooLowRate : ℚ
  DropInsufficientBalanceRate : ℚ
  DropPoolFullRate : ℚ
deriving DecidableEq

/-- The snapshot produced by the parsing loop of `parseMetrics`: the
cumulative totals and gauges read from the document, every derived
field still at its Go zero value (`newMetrics :=
&PrometheusMetrics{LastUpdated: now}`). -/
def mkScraped (txCommitsTotal blocksCommitted own fwd sig nonce fee bal full
    pending tracked : ℚ) : PrometheusMetrics :=
  { TxCommits := 0, TxCommitsTotal := txCommitsTotal, TPS60s := 0,
    BlocksCommitted := blocksCommitted,
    InsertOwnedTxsTotal := own, InsertForwardedTxsTotal := fwd,
    DropInvalidSignatureTotal := sig, DropNonceTooLowTotal := nonce,
    DropFeeTooLowTotal := fee, DropInsufficientBalanceTotal := bal,
    DropPoolFullTotal := full, PendingTxs := pending, TrackedTxs := tracked,
    InsertOwnedTxsRate := 0, InsertForwardedTxsRate := 0,
    DropInvalidSignatureRate := 0, DropNonceTooLowRate := 0,
    DropFeeTooLowRate := 0, DropInsufficientBalanceRate := 0,
    DropPoolFullRate := 0 }

/-- The rate-derivation tail of `parseMetrics`: rates and TPS are
computed only when `timeDiff > 0 && prevMetrics.TxCommitsTotal > 0`;
otherwise the zero-initialized fields of the fresh snapshot stand. -/
def finishParse (prev newM : PrometheusMetrics) (timeDiff : ℚ) :
    PrometheusMetrics :=
  if 0 < timeDiff ∧ 0 < prev.TxCommitsTotal then
    { newM with
      TPS60s := (newM.TxCommitsTotal - prev.TxCommitsTotal) / timeDiff,
      InsertOwnedTxsRate :=
        (newM.InsertOwnedTxsTotal - prev.InsertOwnedTxsTotal) / timeDiff,
      InsertForwardedTxsRate :=
        (newM.InsertForwardedTxsTotal - prev.InsertForwardedTxsTotal) / timeDiff,
      DropInvalidSignatureRate :=
        (newM.DropInvalidSignatureTotal - prev.DropInvalidSignatureTotal) / timeDiff,
      DropNonceTooLowRate :=
        (newM.DropNonceTooLowTotal - prev.DropNonceTooLowTotal) / timeDiff,
      DropFeeTooLowRate :=
        (newM.DropFeeTooLowTotal - prev.DropFeeTooLowTotal) / timeDiff,
      DropInsufficientBalanceRate :=
        (newM.DropInsufficientBalanceTotal - prev.DropInsufficientBalanceTotal) /
          timeDiff,
      DropPoolFullRate :=
        (newM.DropPoolFullTotal - prev.DropPoolFullTotal) / timeDiff }
  else newM

/-! ## Waterfall generator v2 (`backend/waterfall_metrics_v2.go`)

Of the generator's output map we model the `nodes` and `links`
collections and the `metadata.source` tag - the fields the stated
properties concern.  Link values are `Int` (every Go value is an
`int64`, obtained by `int64(...)` truncation from `float64` rates or
by integer arithmetic on the block's transaction count). -/

/-- Go `int64(x)` on a rate product: truncation toward zero
(`Int.tdiv` is Go's integer division). -/
def i64trunc (q : ℚ) : Int := Int.tdiv q.num (q.den : Int)

/-- Embedding of the Go `MonadRealMetrics` struct (IPC collector). -/
structure MonadRealMetrics where
  InsertOwnedTxs : Int
  InsertForwardedTxs : Int
  DropNotWellFormed : Int
  DropInvalidSignature : Int
  DropNonceTooLow : Int
  DropFeeTooLow : Int
  DropInsufficientBalance : Int
  DropPoolFull : Int
  CreateProposal : Int
  CreateProposalTxs : Int
  PendingAddresses : Int
  PendingTxs : Int
  PendingPromoteTxs : Int
  TrackedAddresses : Int
  TrackedTxs : Int
  ParallelSuccess : Int
  SequentialFallback : Int
  StateReads : Int
  StateWrites : Int
deriving DecidableEq

/-- Embedding of the Go `BlockHeader` struct of the subscriber. -/
structure BlockHeader where
  Number : Int
  Hash : String
  Timestamp : Int
  Transactions : Int
  GasUsed : Int
deriving DecidableEq

structure WfNode where
  id : String
  label : String
  color : String
deriving DecidableEq

structure WfLink where
  source : String
  target : String
  value : Int
deriving DecidableEq

structure WaterfallGraph where
  nodes : List WfNode
  links : List WfLink
  source : String
deriving DecidableEq

/-- The eleven canonical Sankey nodes.  The Go file repeats this
literal in each generator; we share the constant. -/
def monadWaterfallNodes : List WfNode :=
  [⟨"submission_rpc", "RPC", "#4CAF50"⟩,
   ⟨"submission_p2p", "P2P", "#2196F3"⟩,
   ⟨"mempool", "Mempool", "#FF9800"⟩,
   ⟨"block_building", "Block Building", "#9C27B0"⟩,
   ⟨"consensus_proposed", "Proposed", "#3F51B5"⟩,
   ⟨"consensus_voted", "Voted", "#FFC107"⟩,
   ⟨"consensus_finalized", "Finalized", "#4CAF50"⟩,
   ⟨"execution", "Execution", "#F44336"⟩,
   ⟨"state_update", "State Update", "#00BCD4"⟩,
   ⟨"finality", "Final (Queryable)", "#8BC34A"⟩,
   ⟨"dropped", "Dropped", "#757575"⟩]

/-- The guarded link-append sequence of
`generateMonadWaterfallFromPrometheus`, over the already-truncated
per-interval counts. -/
def promLinks (rpcReceived p2pReceived invalidSig nonceInvalid
    insufficientBalance blockFull feeDropped : Int) : List WfLink :=
  let toMempool := rpcReceived + p2pReceived - invalidSig
  let toBlockBuilding := toMempool - nonceInvalid
  let toConsensus := toBlockBuilding - insufficientBalance - blockFull - feeDropped
  let toExecution := toConsensus
  let toStateUpdate := toExecution
  let toFinality := toStateUpdate
  (if 0 < rpcReceived then
    [⟨"submission_rpc", "mempool", rpcReceived⟩] else []) ++
  (if 0 < p2pReceived then
    [⟨"submission_p2p", "mempool", p2pReceived⟩] else []) ++
  (if 0 < toBlockBuilding then
    [⟨"mempool", "block_building", toBlockBuilding⟩] else []) ++
  (if 0 < invalidSig + nonceInvalid then
    [⟨"mempool", "dropped", invalidSig + nonceInvalid⟩] else []) ++
  (if 0 < toConsensus then
    [⟨"block_building", "consensus_proposed", toConsensus⟩] else []) ++
  (if 0 < insufficientBalance + blockFull + feeDropped then
    [⟨"block_building", "dropped",
      insufficientBalance + blockFull + feeDropped⟩] else []) ++
  (if 0 < toConsensus then
    [⟨"consensus_proposed", "consensus_voted", toConsensus⟩,
     ⟨"consensus_voted", "consensus_finalized", toConsensus⟩,
     ⟨"consensus_finalized", "execution", toExecution⟩] else []) ++
  (if 0 < toStateUpdate then
    [⟨"execution", "state_update", toStateUpdate⟩] else []) ++
  (if 0 < toFinality then
    [⟨"state_update", "finality", toFinality⟩] else [])

/-- `generateMonadWaterfallFromPrometheus`: per-interval counts are
`int64(rate * 5.0)`, links follow the guarded appends. -/
def generateMonadWaterfallFromPrometheus (metrics : PrometheusMetrics) :
    WaterfallGraph :=
  let interval : ℚ := 5
  { nodes := monadWaterfallNodes,
    links := promLinks
      (i64trunc (metrics.InsertOwnedTxsRate * interval))
      (i64trunc (metrics.InsertForwardedTxsRate * interval))
      (i64trunc (metrics.DropInvalidSignatureRate * interval))
      (i64trunc (metrics.DropNonceTooLowRate * interval))
      (i64trunc (metrics.DropInsufficientBalanceRate * interval))
      (i64trunc (metrics.DropPoolFullRate * interval))
      (i64trunc (metrics.DropFeeTooLowRate * interval)),
    source := "prometheus_metrics" }

/-- `generateMonadMockWaterfall`: constant last-resort data,
`metadata.source = "mock_data"`. -/
def generateMonadMockWaterfall : WaterfallGraph :=
  { nodes := monadWaterfallNodes,
    links :=
      [⟨"submission_rpc", "mempool", 700⟩,
       ⟨"submission_p2p", "mempool", 300⟩,
       ⟨"mempool", "block_building", 950⟩,
       ⟨"mempool", "dropped", 50⟩,
       ⟨"block_building", "consensus_proposed", 930⟩,
       ⟨"block_building", "dropped", 20⟩,
       ⟨"consensus_proposed", "consensus_voted", 930⟩,
       ⟨"consensus_voted", "consensus_finalized", 930⟩,
       ⟨"consensus_finalized", "execution", 930⟩,
       ⟨"execution", "state_update", 925⟩,
       ⟨"execution", "dropped", 5⟩,
       ⟨"state_update", "finality", 925⟩],
    source := "mock_data" }

/-- `generateMonadWaterfallFromIPC` is an unimplemented stub: it
ignores its argument and returns the mock waterfall. -/
def generateMonadWaterfallFromIPC (_metrics : MonadRealMetrics) :
    WaterfallGraph :=
  generateMonadMockWaterfall

/-- `generateMonadWaterfallFromBlock`: fixed 50/50 RPC-P2P split and
fixed drop ratios from the block's transaction count; the link list is
emitted unconditionally (no positivity guards).  `Int.tdiv` is Go's
truncating integer division. -/
def generateMonadWaterfallFromBlock (block : BlockHeader) : WaterfallGraph :=
  let txCount := block.Transactions
  let rpcReceived := Int.tdiv (txCount * 5) 10
  let p2pReceived := Int.tdiv (txCount * 5) 10
  let invalidSig := Int.tdiv (rpcReceived + p2pReceived) 100
  let nonceInvalid := Int.tdiv (rpcReceived + p2pReceived) 200
  let insufficientBalance := Int.tdiv (rpcReceived + p2pReceived) 500
  let toMempool := rpcReceived + p2pReceived - invalidSig
  let toBlockBuilding := toMempool - nonceInvalid
  let toConsensus := toBlockBuilding - insufficientBalance
  { nodes := monadWaterfallNodes,
    links :=
      [⟨"submission_rpc", "mempool", rpcReceived⟩,
       ⟨"submission_p2p", "mempool", p2pReceived⟩,
       ⟨"mempool", "block_building", toBlockBuilding⟩,
       ⟨"mempool", "dropped", invalidSig + nonceInvalid⟩,
       ⟨"block_building", "consensus_proposed", toConsensus⟩,
       ⟨"block_building", "dropped", insufficientBalance⟩,
       ⟨"consensus_proposed", "consensus_voted", toConsensus⟩,
       ⟨"consensus_voted", "consensus_finalized", toConsensus⟩,
       ⟨"consensus_finalized", "execution", toConsensus⟩,
       ⟨"execution", "state_update", toConsensus⟩,
       ⟨"state_update", "finality", toConsensus⟩],
    source := "block_estimation" }

/-- Fallback chain after the Prometheus check of
`GenerateMonadWaterfall`: IPC if healthy, then block estimation if the
subscriber is connected with a latest block, then mock. -/
def waterfallFromIPCOrLater (ipc : Option (Bool × MonadRealMetrics))
    (sub : Option (Bool × Option BlockHeader)) : WaterfallGraph :=
  match ipc with
  | some (healthy, m) =>
      if healthy then generateMonadWaterfallFromIPC m
      else
        match sub with
        | some (connected, latest) =>
            if connected then
              match latest with
              | some block => generateMonadWaterfallFromBlock block
              | none => generateMonadMockWaterfall
            else generateMonadMockWaterfall
        | none => generateMonadMockWaterfall
  | none =>
      match sub with
      | some (connected, latest) =>
          if connected then
            match latest with
            | some block => generateMonadWaterfallFromBlock block
            | none => generateMonadMockWaterfall
          else generateMonadMockWaterfall
      | none => generateMonadMockWaterfall

/-- `GenerateMonadWaterfall`: source priority Prometheus > IPC >
block estimation > mock.  The three process-wide collectors are passed
as optional (nil-able) views: health flag plus current data. -/
def GenerateMonadWaterfall (prom : Option (Bool × PrometheusMetrics))
    (ipc : Option (Bool × MonadRealMetrics))
    (sub : Option (Bool × Option BlockHeader)) : WaterfallGraph :=
  match prom with
  | some (healthy, promMetrics) =>
      if healthy ∧ 0 < promMetrics.TPS60s ∧
          (0 < promMetrics.InsertOwnedTxsRate ∨
            0 < promMetrics.InsertForwardedTxsRate) then
        generateMonadWaterfallFromPrometheus promMetrics
      else waterfallFromIPCOrLater ipc sub
  | none => waterfallFromIPCOrLater ipc sub

/-- The Prometheus source qualifies iff the collector exists, is
healthy, and shows active TPS plus at least one insert rate. -/
def promQualifies : Option (Bool × PrometheusMetrics) → Prop
  | some (healthy, m) =>
      healthy = true ∧ 0 < m.TPS60s ∧
        (0 < m.InsertOwnedTxsRate ∨ 0 < m.InsertForwardedTxsRate)
  | none => False

/-- The IPC collector exists and reports healthy. -/
def ipcHealthy : Option (Bool × MonadRealMetrics) → Prop
  | some (healthy, _) => healthy = true
  | none => False

/-! ### Flow accounting -/

/-- Total value entering a node over a link list. -/
def inflow (links : List WfLink) (node : String) : Int :=
  ((links.filter (fun l => l.target = node)).map (fun l => l.value)).sum

/-- Total value leaving a node (drop edges included). -/
def outflow (links : List WfLink) (node : String) : Int :=
  ((links.filter (fun l => l.source = node)).map (fun l => l.value)).sum

/-- Flow conservation at a node: what enters equals what leaves,
where the outgoing total includes the edge routed to `dropped` (the
spec's "Σ out + value routed to dropped"). -/
def conservedAt (links : List WfLink) (node : String) : Prop :=
  inflow links node = outflow links node

/-! ## Block subscriber TPS accounting (`MonadSubscriber`) -/

structure BlockTxInfo where
  Timestamp : Int
  Transactions : Int
deriving DecidableEq

instance : Inhabited BlockTxInfo := ⟨⟨0, 0⟩⟩

/-- Embedding of the subscriber state used by the TPS accessors, the
history buffer and the broadcast tick.  A history point models the Go
`[4]float64` array as a 4-element list of `ℚ`. -/
structure MonadSubscriber where
  isConnected : Bool
  latestBlock : Option BlockHeader
  recentBlocks : List BlockTxInfo
  maxRecentBlocks : Nat
  tpsHistory : List (List ℚ)
  maxHistorySize : Nat
deriving DecidableEq

/-- `NewMonadSubscriber`: empty buffers, window 10, history cap 200. -/
def newMonadSubscriber : MonadSubscriber :=
  { isConnected := false, latestBlock := none, recentBlocks := [],
    maxRecentBlocks := 10, tpsHistory := [], maxHistorySize := 200 }

/-- `calculateAverageTPS`: zero below two blocks; otherwise total tx
over the first-to-last timestamp span, falling back to
`(len-1) * 0.4` when the span is non-positive. -/
def calculateAverageTPS (s : MonadSubscriber) : ℚ :=
  if s.recentBlocks.length < 2 then 0
  else
    let totalTx : Int := ((s.recentBlocks.map (fun b => b.Transactions)).sum)
    let firstBlock := s.recentBlocks.headI
    let lastBlock := s.recentBlocks.getLastI
    let timeSpanSeconds : ℚ :=
      ((lastBlock.Timestamp - firstBlock.Timestamp : Int) : ℚ)
    let timeSpanSeconds :=
      if timeSpanSeconds ≤ 0 then
        ((s.recentBlocks.length - 1 : Nat) : ℚ) * (2 / 5)
      else timeSpanSeconds
    (totalTx : ℚ) / timeSpanSeconds

/-- `calculateOneSecondTPS`: zero below two blocks; otherwise the sum
of tx counts over the trailing blocks whose timestamp is within one
second of the newest (the Go loop walks backwards and breaks). -/
def calculateOneSecondTPS (s : MonadSubscriber) : ℚ :=
  if s.recentBlocks.length < 2 then 0
  else
    let lastBlock := s.recentBlocks.getLastI
    let oneSecondAgo := lastBlock.Timestamp - 1
    let totalTx : Int :=
      (((s.recentBlocks.reverse.takeWhile
        (fun b => oneSecondAgo ≤ b.Timestamp)).map
          (fun b => b.Transactions)).sum)
    (totalTx : ℚ)

/-- `getInstantTPS`: zero on an empty window; otherwise the newest
block's tx count over the nominal 0.4 s block time. -/
def getInstantTPS (s : MonadSubscriber) : ℚ :=
  if s.recentBlocks.length = 0 then 0
  else ((s.recentBlocks.getLastI.Transactions : Int) : ℚ) / (2 / 5)

/-- `addTPSToHistory`: append the point
`[oneSecondTPS, 0, avgTPS, instantTPS]` (vote TPS hard-coded to 0),
then FIFO-trim to `maxHistorySize`. -/
def addTPSToHistory (s : MonadSubscriber)
    (oneSecondTPS avgTPS instantTPS : ℚ) : MonadSubscriber :=
  let h := s.tpsHistory ++ [[oneSecondTPS, 0, avgTPS, instantTPS]]
  { s with tpsHistory := if s.maxHistorySize < h.length then h.drop 1 else h }

/-! ## Broadcast tick (`sendFiredancerUpdates`) -/

/-- Embedding of the Go `ConsensusMetrics` struct. -/
structure ConsensusMetrics where
  CurrentHeight : Int
  LastBlockTime : Int
  BlockTime : ℚ
  ValidatorCount : Int
  VotingPower : Int
  ParticipationRate : ℚ
deriving DecidableEq

/-- One 200 ms tick of the per-client loop in `sendFiredancerUpdates`,
restricted to its effect on the mutable state (ping counter and the
subscriber's TPS history); WebSocket writes are modelled as
succeeding.  On a failed consensus fetch the loop `continue`s; on a
successful fetch it increments the ping id, and appends a TPS-history
point exactly when the subscriber is non-nil and connected — the
fetched block height is never compared against a previous height. -/
def firedancerTick (fetch : Option ConsensusMetrics)
    (sub : Option MonadSubscriber) (pingID : Nat) :
    Option MonadSubscriber × Nat :=
  match fetch with
  | none => (sub, pingID)
  | some _ =>
      let pingID := pingID + 1
      match sub with
      | some s =>
          if s.isConnected then
            (some (addTPSToHistory s (calculateOneSecondTPS s)
              (calculateAverageTPS s) (getInstantTPS s)), pingID)
          else (some s, pingID)
      | none => (none, pingID)

/-! ## Sample inputs used by concrete instantiations -/

/-- A Prometheus snapshot that qualifies for the waterfall (active
TPS, active owned-insert rate) while its signature-drop rate exceeds
the inserts. -/
def promSampleBad : PrometheusMetrics :=
  { TxCommits := 0, TxCommitsTotal := 0, TPS60s := 1, BlocksCommitted := 0,
    InsertOwnedTxsTotal := 0, InsertForwardedTxsTotal := 0,
    DropInvalidSignatureTotal := 0, DropNonceTooLowTotal := 0,
    DropFeeTooLowTotal := 0, DropInsufficientBalanceTotal := 0,
    DropPoolFullTotal := 0, PendingTxs := 0, TrackedTxs := 0,
    InsertOwnedTxsRate := 2, InsertForwardedTxsRate := 0,
    DropInvalidSignatureRate := 20, DropNonceTooLowRate := 0,
    DropFeeTooLowRate := 0, DropInsufficientBalanceRate := 0,
    DropPoolFullRate := 0 }

/-- An enriched block with zero transactions. -/
def blockSampleZero : BlockHeader :=
  { Number := 100, Hash := "h", Timestamp := 0, Transactions := 0, GasUsed := 0 }

/-- An arbitrary IPC metrics snapshot. -/
def ipcSample : MonadRealMetrics :=
  { InsertOwnedTxs := 0, InsertForwardedTxs := 0, DropNotWellFormed := 0,
    DropInvalidSignature := 0, DropNonceTooLow := 0, DropFeeTooLow := 0,
    DropInsufficientBalance := 0, DropPoolFull := 0, CreateProposal := 0,
    CreateProposalTxs := 0, PendingAddresses := 0, PendingTxs := 0,
    PendingPromoteTxs := 0, TrackedAddresses := 0, TrackedTxs := 0,
    ParallelSuccess := 0, SequentialFallback := 0, StateReads := 0,
    StateWrites := 0 }

/-- A consensus fetch result with fixed block height 100. -/
def cmSample : ConsensusMetrics :=
  { CurrentHeight := 100, LastBlockTime := 0, BlockTime := 0,
    ValidatorCount := 0, VotingPower := 0, ParticipationRate := 0 }

/-- A connected subscriber with fresh buffers. -/
def subSample : MonadSubscriber :=
  { newMonadSubscriber with isConnected := true }

/-! ### Association-list and step lemmas -/

theorem lookupBlock_nil (k : Nat) : lookupBlock [] k = none := rfl

theorem lookupBlock_cons (a : Nat) (v : BlockConsensusState)
    (l : List (Nat × BlockConsensusState)) (k : Nat) :
    lookupBlock ((a, v) :: l) k = if a = k then some v else lookupBlock l k := by
  by_cases h : a = k <;> simp [lookupBlock, List.find?, h]

theorem lookup_mapUpdate (k m : Nat) (f : BlockConsensusState → BlockConsensusState)
    (l : List (Nat × BlockConsensusState)) :
    lookupBlock (mapUpdate k f l) m =
      if m = k then (lookupBlock l m).map f else lookupBlock l m := by
  induction l with
  | nil => by_cases h : m = k <;> simp [mapUpdate, lookupBlock_nil, h]
  | cons p l ih =>
      obtain ⟨a, v⟩ := p
      by_cases hak : a = k
      · have hcons : mapUpdate k f ((a, v) :: l) = (a, f v) :: mapUpdate k f l := by
          simp [mapUpdate, hak]
        by_cases ham : a = m
        · subst hak; subst ham
          simp [hcons, lookupBlock_cons]
        · subst hak
          have h2 : ¬ m = a := fun hh => ham hh.symm
          rw [hcons, lookupBlock_cons, if_neg ham, ih, if_neg h2, if_neg h2,
            lookupBlock_cons, if_neg ham]
      · have hcons : mapUpdate k f ((a, v) :: l) = (a, v) :: mapUpdate k f l := by
          simp [mapUpdate, hak]
        by_cases ham : a = m
        · subst ham
          have h2 : ¬ a = k := hak
          rw [hcons, lookupBlock_cons, if_pos rfl, if_neg h2, lookupBlock_cons,
            if_pos rfl]
        · rw [hcons, lookupBlock_cons, if_neg ham, ih, lookupBlock_cons, if_neg ham]

theorem lookup_filterKeys (q : Nat → Bool) (l : List (Nat × BlockConsensusState))
    (m : Nat) :
    lookupBlock (l.filter (fun p => q p.1)) m =
      if q m then lookupBlock l m else none := by
  induction l with
  | nil => by_cases h : q m <;> simp [lookupBlock_nil, h]
  | cons p l ih =>
      obtain ⟨a, v⟩ := p
      by_cases ha : q a
      · by_cases hm : a = m
        · subst hm
          simp [List.filter, ha, lookupBlock_cons]
        · simp [List.filter, ha, lookupBlock_cons, hm, ih]
      · by_cases hm : a = m
        · subst hm
          simp [List.filter, ha, lookupBlock_cons, ih]
        · simp [List.filter, ha, lookupBlock_cons, hm, ih]

theorem keys_mapUpdate (k : Nat) (f : BlockConsensusState → BlockConsensusState)
    (l : List (Nat × BlockConsensusState)) :
    (mapUpdate k f l).map Prod.fst = l.map Prod.fst := by
  induction l with
  | nil => rfl
  | cons p l ih =>
      by_cases h : p.1 = k <;> simp [mapUpdate, h] at ih ⊢ <;> exact ih

theorem lookup_eq_none_of_gt (l : List (Nat × BlockConsensusState)) (c k : Nat)
    (hle : ∀ p ∈ l, p.1 ≤ c) (hk : c < k) : lookupBlock l k = none := by
  have hfind : l.find? (fun p => decide (p.1 = k)) = none := by
    rw [List.find?_eq_none]
    intro p hp
    simp only [decide_eq_true_eq]
    intro hpk
    have := hle p hp
    omega
  simp [lookupBlock, hfind]

theorem lookup_mem (l : List (Nat × BlockConsensusState)) (m : Nat)
    (b : BlockConsensusState) (h : lookupBlock l m = some b) : (m, b) ∈ l := by
  rcases hfind : l.find? (fun p => decide (p.1 = m)) with _ | p
  · simp only [lookupBlock, hfind, Option.map_none'] at h
    cases h
  · simp only [lookupBlock, hfind, Option.map_some'] at h
    have hkey := List.find?_some hfind
    simp only [decide_eq_true_eq] at hkey
    have hmem := List.mem_of_find?_eq_some hfind
    have hsnd : p.2 = b := by injection h
    have hpe : p = (m, b) := by
      obtain ⟨p1, p2⟩ := p
      simp only at hkey hsnd
      rw [hkey, hsnd]
    rw [← hpe]
    exact hmem

theorem lookup_eq_none_iff (l : List (Nat × BlockConsensusState)) (k : Nat) :
    lookupBlock l k = none ↔ ∀ p ∈ l, p.1 ≠ k := by
  constructor
  · intro h p hp hpk
    have hfind : l.find? (fun p => decide (p.1 = k)) = none := by
      rcases hf : l.find? (fun p => decide (p.1 = k)) with _ | q
      · exact hf
      · simp [lookupBlock, hf] at h
    rw [List.find?_eq_none] at hfind
    have := hfind p hp
    simp [hpk] at this
  · intro h
    have hfind : l.find? (fun p => decide (p.1 = k)) = none := by
      rw [List.find?_eq_none]
      intro p hp
      simp only [decide_eq_true_eq]
      exact h p hp
    simp [lookupBlock, hfind]

theorem toVoted_rank (now : Nat) (b : BlockConsensusState) :
    phaseRank b.phase ≤ phaseRank (toVoted now b).phase := by
  unfold toVoted
  by_cases h : b.phase = .proposed <;> simp [h, phaseRank]

theorem toFinalized_rank (now : Nat) (b : BlockConsensusState) :
    phaseRank b.phase ≤ phaseRank (toFinalized now b).phase := by
  cases hb : b.phase <;> simp [toFinalized, phaseRank, hb]

theorem bumpCurrent_blocks (n : Nat) (ct : ConsensusTracker) :
    (bumpCurrent n ct).blocks = ct.blocks := by
  unfold bumpCurrent; split <;> rfl

theorem bumpCurrent_maxHistory (n : Nat) (ct : ConsensusTracker) :
    (bumpCurrent n ct).maxHistory = ct.maxHistory := by
  unfold bumpCurrent; split <;> rfl

theorem bumpCurrent_current (n : Nat) (ct : ConsensusTracker) :
    (bumpCurrent n ct).currentBlock =
      if ct.currentBlock < n then n else ct.currentBlock := by
  unfold bumpCurrent; split <;> simp_all

theorem insert_current (now n : Nat) (h : String) (c : Int) (ct : ConsensusTracker) :
    (insertIfAbsent now n h c ct).currentBlock = ct.currentBlock := by
  unfold insertIfAbsent; split <;> rfl

theorem insert_maxHistory (now n : Nat) (h : String) (c : Int) (ct : ConsensusTracker) :
    (insertIfAbsent now n h c ct).maxHistory = ct.maxHistory := by
  unfold insertIfAbsent; split <;> rfl

theorem insert_lookup_fwd (now n : Nat) (h : String) (c : Int)
    (ct : ConsensusTracker) (m : Nat) (b : BlockConsensusState)
    (hb : lookupBlock ct.blocks m = some b) :
    lookupBlock (insertIfAbsent now n h c ct).blocks m = some b := by
  unfold insertIfAbsent
  split
  · rename_i habs
    show lookupBlock ((n, mkProposed now n h c) :: ct.blocks) m = some b
    rw [lookupBlock_cons]
    split
    · rename_i hnm
      rw [Option.isNone_iff_eq_none, lookup_eq_none_iff] at habs
      exact absurd rfl (hnm ▸ habs (m, b) (lookup_mem ct.blocks m b hb))
    · exact hb
  · exact hb

theorem insert_length_le (now n : Nat) (h : String) (c : Int) (ct : ConsensusTracker) :
    (insertIfAbsent now n h c ct).blocks.length ≤ ct.blocks.length + 1 := by
  unfold insertIfAbsent
  split
  · simp
  · omega

theorem votedStep_current (now n : Nat) (ct : ConsensusTracker) :
    (votedStep now n ct).currentBlock = ct.currentBlock := by
  unfold votedStep; split <;> rfl

theorem votedStep_maxHistory (now n : Nat) (ct : ConsensusTracker) :
    (votedStep now n ct).maxHistory = ct.maxHistory := by
  unfold votedStep; split <;> rfl

theorem votedStep_keys (now n : Nat) (ct : ConsensusTracker) :
    (votedStep now n ct).blocks.map Prod.fst = ct.blocks.map Prod.fst := by
  unfold votedStep
  split
  · exact keys_mapUpdate _ _ _
  · rfl

theorem votedStep_lookup_fwd (now n : Nat) (ct : ConsensusTracker) (m : Nat)
    (b : BlockConsensusState) (hb : lookupBlock ct.blocks m = some b) :
    ∃ b2, lookupBlock (votedStep now n ct).blocks m = some b2 ∧
      phaseRank b.phase ≤ phaseRank b2.phase := by
  unfold votedStep
  split
  · show ∃ b2, lookupBlock (mapUpdate (n - 1) (toVoted now) ct.blocks) m = some b2 ∧ _
    rw [lookup_mapUpdate]
    split
    · exact ⟨toVoted now b, by rw [hb]; rfl, toVoted_rank now b⟩
    · exact ⟨b, hb, le_refl _⟩
  · exact ⟨b, hb, le_refl _⟩

theorem finalStep_current (now n : Nat) (ct : ConsensusTracker) :
    (finalStep now n ct).currentBlock = ct.currentBlock := by
  unfold finalStep
  split
  · split
    · split <;> rfl
    · rfl
  · rfl

theorem finalStep_maxHistory (now n : Nat) (ct : ConsensusTracker) :
    (finalStep now n ct).maxHistory = ct.maxHistory := by
  unfold finalStep
  split
  · split
    · split <;> rfl
    · rfl
  · rfl

theorem finalStep_keys (now n : Nat) (ct : ConsensusTracker) :
    (finalStep now n ct).blocks.map Prod.fst = ct.blocks.map Prod.fst := by
  unfold finalStep
  split
  · split
    · split
      · exact keys_mapUpdate _ _ _
      · rfl
    · rfl
  · rfl

theorem finalStep_lookup_fwd (now n : Nat) (ct : ConsensusTracker) (m : Nat)
    (b : BlockConsensusState) (hb : lookupBlock ct.blocks m = some b) :
    ∃ b2, lookupBlock (finalStep now n ct).blocks m = some b2 ∧
      phaseRank b.phase ≤ phaseRank b2.phase := by
  unfold finalStep
  split
  · split
    · split
      · show ∃ b2,
          lookupBlock (mapUpdate (n - 2) (toFinalized now) ct.blocks) m = some b2 ∧ _
        rw [lookup_mapUpdate]
        split
        · exact ⟨toFinalized now b, by rw [hb]; rfl, toFinalized_rank now b⟩
        · exact ⟨b, hb, le_refl _⟩
      · exact ⟨b, hb, le_refl _⟩
    · exact ⟨b, hb, le_refl _⟩
  · exact ⟨b, hb, le_refl _⟩

theorem cleanup_current (ct : ConsensusTracker) :
    (cleanupOldBlocks ct).currentBlock = ct.currentBlock := by
  unfold cleanupOldBlocks; split <;> rfl

theorem cleanup_maxHistory (ct : ConsensusTracker) :
    (cleanupOldBlocks ct).maxHistory = ct.maxHistory := by
  unfold cleanupOldBlocks; split <;> rfl

theorem lookup_filter_ge (t : Nat) (l : List (Nat × BlockConsensusState)) (m : Nat) :
    lookupBlock (l.filter (fun p => ¬ p.1 < t)) m =
      if m < t then none else lookupBlock l m := by
  have h := lookup_filterKeys (fun x => decide (¬ x < t)) l m
  by_cases hm : m < t <;> simp [hm] at h ⊢ <;> exact h

theorem cleanup_lookup_back (ct : ConsensusTracker) (m : Nat)
    (b : BlockConsensusState)
    (hb : lookupBlock (cleanupOldBlocks ct).blocks m = some b) :
    lookupBlock ct.blocks m = some b := by
  unfold cleanupOldBlocks at hb
  split at hb
  · exact hb
  · dsimp only at hb
    rw [lookup_filter_ge] at hb
    split at hb
    · cases hb
    · exact hb

theorem cleanup_mem_back (ct : ConsensusTracker) (p : Nat × BlockConsensusState)
    (hp : p ∈ (cleanupOldBlocks ct).blocks) : p ∈ ct.blocks := by
  unfold cleanupOldBlocks at hp
  split at hp
  · exact hp
  · exact (List.mem_filter.mp hp).1

theorem cleanup_keys_nodup (ct : ConsensusTracker)
    (hnd : (ct.blocks.map Prod.fst).Nodup) :
    ((cleanupOldBlocks ct).blocks.map Prod.fst).Nodup := by
  unfold cleanupOldBlocks
  split
  · exact hnd
  · exact hnd.sublist ((List.filter_sublist _).map Prod.fst)

/-- Pigeonhole for the block map: distinct keys all lying in
`[t, c]` bound the number of entries by `c + 1 - t`. -/
theorem length_le_of_keys_in_range (l : List (Nat × BlockConsensusState))
    (t c : Nat) (hnd : (l.map Prod.fst).Nodup)
    (hin : ∀ p ∈ l, t ≤ p.1 ∧ p.1 ≤ c) : l.length ≤ c + 1 - t := by
  have hsub : (l.map Prod.fst).toFinset ⊆ Finset.Icc t c := by
    intro x hx
    rw [List.mem_toFinset] at hx
    obtain ⟨p, hp, rfl⟩ := List.mem_map.mp hx
    exact Finset.mem_Icc.mpr (hin p hp)
  have hcard := Finset.card_le_card hsub
  rw [List.toFinset_card_of_nodup hnd, Nat.card_Icc] at hcard
  simpa using hcard

theorem mem_mapUpdate_fst (k : Nat) (f : BlockConsensusState → BlockConsensusState)
    (l : List (Nat × BlockConsensusState)) (p : Nat × BlockConsensusState)
    (hp : p ∈ mapUpdate k f l) : ∃ q ∈ l, p.1 = q.1 := by
  unfold mapUpdate at hp
  obtain ⟨q, hq, hqe⟩ := List.mem_map.mp hp
  refine ⟨q, hq, ?_⟩
  by_cases h : q.1 = k
  · simp [h] at hqe
    rw [← hqe]
    exact h.symm
  · simp [h] at hqe
    rw [← hqe]

theorem mapUpdate_length (k : Nat) (f : BlockConsensusState → BlockConsensusState)
    (l : List (Nat × BlockConsensusState)) : (mapUpdate k f l).length = l.length :=
  List.length_map l _

/-- After `cleanupOldBlocks`, a well-formed map holds at most
`maxHistory + 1` entries: the surviving keys are distinct values in
`[currentBlock - maxHistory, currentBlock]`. -/
theorem cleanup_length_le (ct : ConsensusTracker)
    (hnd : (ct.blocks.map Prod.fst).Nodup)
    (hle : ∀ p ∈ ct.blocks, p.1 ≤ ct.currentBlock)
    (hcur : ct.currentBlock < U64MOD)
    (hmh : ct.maxHistory < U64MOD) :
    (cleanupOldBlocks ct).blocks.length ≤ ct.maxHistory + 1 := by
  unfold cleanupOldBlocks
  split
  · rename_i hlen
    omega
  · rename_i hlen
    push_neg at hlen
    dsimp only
    have hbound := length_le_of_keys_in_range ct.blocks 0 ct.currentBlock hnd
      (fun p hp => ⟨Nat.zero_le _, hle p hp⟩)
    have hmhc : ct.maxHistory ≤ ct.currentBlock := by omega
    have hthr : sub64 ct.currentBlock ct.maxHistory =
        ct.currentBlock - ct.maxHistory := by
      unfold sub64
      rw [Nat.mod_eq_of_lt hmh]
      have h1 : ct.currentBlock + (U64MOD - ct.maxHistory) =
          (ct.currentBlock - ct.maxHistory) + U64MOD := by omega
      rw [h1, Nat.add_mod_right, Nat.mod_eq_of_lt (by omega)]
    rw [hthr]
    have hin : ∀ p ∈ ct.blocks.filter
        (fun p => ¬ p.1 < ct.currentBlock - ct.maxHistory),
        ct.currentBlock - ct.maxHistory ≤ p.1 ∧ p.1 ≤ ct.currentBlock := by
      intro p hp
      have hmem := List.mem_filter.mp hp
      have hkeep := hmem.2
      simp only [decide_eq_true_eq] at hkeep
      exact ⟨by omega, hle p hmem.1⟩
    have hfin := length_le_of_keys_in_range _
      (ct.currentBlock - ct.maxHistory) ct.currentBlock
      (hnd.sublist ((List.filter_sublist _).map Prod.fst)) hin
    omega

theorem keysLe_of_keys_eq (l l2 : List (Nat × BlockConsensusState)) (c : Nat)
    (hk : l2.map Prod.fst = l.map Prod.fst) (hle : ∀ p ∈ l, p.1 ≤ c) :
    ∀ p ∈ l2, p.1 ≤ c := by
  intro p hp
  have : p.1 ∈ l2.map Prod.fst := List.mem_map_of_mem Prod.fst hp
  rw [hk] at this
  obtain ⟨q, hq, hqe⟩ := List.mem_map.mp this
  exact hqe ▸ hle q hq

theorem WF_bumpCurrent (n : Nat) (ct : ConsensusTracker) (hwf : TrackerWF ct)
    (hn : n < U64MOD) : TrackerWF (bumpCurrent n ct) := by
  refine ⟨?_, ?_, ?_, ?_⟩
  · rw [bumpCurrent_blocks]; exact hwf.nodup
  · rw [bumpCurrent_blocks, bumpCurrent_current]
    intro p hp
    have := hwf.keysLe p hp
    split <;> omega
  · rw [bumpCurrent_current]
    have := hwf.currentLt
    split <;> omega
  · rw [bumpCurrent_maxHistory]; exact hwf.maxHist

theorem WF_insert (now n : Nat) (hs : String) (c : Int) (ct : ConsensusTracker)
    (hwf : TrackerWF ct) (hn : n ≤ ct.currentBlock) :
    TrackerWF (insertIfAbsent now n hs c ct) := by
  unfold insertIfAbsent
  split
  · rename_i habs
    rw [Option.isNone_iff_eq_none, lookup_eq_none_iff] at habs
    refine ⟨?_, ?_, hwf.currentLt, hwf.maxHist⟩
    · dsimp only
      rw [List.map_cons]
      refine List.Nodup.cons ?_ hwf.nodup
      intro hmem
      obtain ⟨q, hq, hqe⟩ := List.mem_map.mp hmem
      exact habs q hq hqe
    · dsimp only
      intro p hp
      rcases List.mem_cons.mp hp with hp1 | hp2
      · rw [hp1]; exact hn
      · exact hwf.keysLe p hp2
  · exact hwf

theorem WF_votedStep (now n : Nat) (ct : ConsensusTracker) (hwf : TrackerWF ct) :
    TrackerWF (votedStep now n ct) := by
  refine ⟨?_, ?_, ?_, ?_⟩
  · rw [votedStep_keys]; exact hwf.nodup
  · rw [votedStep_current]
    exact keysLe_of_keys_eq ct.blocks _ _ (votedStep_keys now n ct) hwf.keysLe
  · rw [votedStep_current]; exact hwf.currentLt
  · rw [votedStep_maxHistory]; exact hwf.maxHist

theorem WF_finalStep (now n : Nat) (ct : ConsensusTracker) (hwf : TrackerWF ct) :
    TrackerWF (finalStep now n ct) := by
  refine ⟨?_, ?_, ?_, ?_⟩
  · rw [finalStep_keys]; exact hwf.nodup
  · rw [finalStep_current]
    exact keysLe_of_keys_eq ct.blocks _ _ (finalStep_keys now n ct) hwf.keysLe
  · rw [finalStep_current]; exact hwf.currentLt
  · rw [finalStep_maxHistory]; exact hwf.maxHist

theorem WF_cleanup (ct : ConsensusTracker) (hwf : TrackerWF ct) :
    TrackerWF (cleanupOldBlocks ct) := by
  refine ⟨cleanup_keys_nodup ct hwf.nodup, ?_, ?_, ?_⟩
  · rw [cleanup_current]
    intro p hp
    exact hwf.keysLe p (cleanup_mem_back ct p hp)
  · rw [cleanup_current]; exact hwf.currentLt
  · rw [cleanup_maxHistory]; exact hwf.maxHist

theorem WF_OnBlockProposed (now n : Nat) (hs : String) (c : Int)
    (ct : ConsensusTracker) (hwf : TrackerWF ct) (hn : n < U64MOD) :
    TrackerWF (OnBlockProposed now n hs c ct) := by
  unfold OnBlockProposed
  apply WF_cleanup
  apply WF_finalStep
  apply WF_votedStep
  apply WF_insert _ _ _ _ _ (WF_bumpCurrent n ct hwf hn)
  rw [bumpCurrent_current]
  split <;> omega

theorem WF_OnBlockVoted (now n : Nat) (ct : ConsensusTracker)
    (hwf : TrackerWF ct) : TrackerWF (OnBlockVoted now n ct) := by
  unfold OnBlockVoted
  split
  · refine ⟨?_, ?_, hwf.currentLt, hwf.maxHist⟩
    · dsimp only
      rw [keys_mapUpdate]; exact hwf.nodup
    · exact keysLe_of_keys_eq ct.blocks _ _ (keys_mapUpdate _ _ _) hwf.keysLe
  · exact hwf

theorem WF_OnBlockFinalized (now n : Nat) (ct : ConsensusTracker)
    (hwf : TrackerWF ct) : TrackerWF (OnBlockFinalized now n ct) := by
  unfold OnBlockFinalized
  split
  · refine ⟨?_, ?_, hwf.currentLt, hwf.maxHist⟩
    · dsimp only
      rw [keys_mapUpdate]; exact hwf.nodup
    · exact keysLe_of_keys_eq ct.blocks _ _ (keys_mapUpdate _ _ _) hwf.keysLe
  · exact hwf

theorem TrackerInv_init : TrackerInv initTracker := by
  refine ⟨⟨?_, ?_, ?_, rfl⟩, ?_⟩ <;> simp [initTracker, U64MOD]

theorem TrackerInv_applyOp (ct : ConsensusTracker) (op : TrackerOp)
    (hinv : TrackerInv ct) (hn : op.blockNum < U64MOD) :
    TrackerInv (applyOp ct op) := by
  obtain ⟨hwf, hlen⟩ := hinv
  cases op with
  | proposed now n hs c =>
      simp only [TrackerOp.blockNum] at hn
      refine ⟨WF_OnBlockProposed now n hs c ct hwf hn, ?_⟩
      simp only [applyOp]
      unfold OnBlockProposed
      set mid := updatePhases now n (insertIfAbsent now n hs c (bumpCurrent n ct))
        with hmid
      have hwfmid : TrackerWF mid := by
        apply WF_finalStep
        apply WF_votedStep
        apply WF_insert _ _ _ _ _ (WF_bumpCurrent n ct hwf hn)
        rw [bumpCurrent_current]
        split <;> omega
      have := cleanup_length_le mid hwfmid.nodup hwfmid.keysLe hwfmid.currentLt
        (by rw [hwfmid.maxHist]; unfold U64MOD; norm_num)
      rw [cleanup_maxHistory]
      exact this
  | voted now n =>
      refine ⟨WF_OnBlockVoted now n ct hwf, ?_⟩
      simp only [applyOp]
      unfold OnBlockVoted
      split
      · dsimp only
        rw [mapUpdate_length]
        exact hlen
      · exact hlen
  | finalized now n =>
      refine ⟨WF_OnBlockFinalized now n ct hwf, ?_⟩
      simp only [applyOp]
      unfold OnBlockFinalized
      split
      · dsimp only
        rw [mapUpdate_length]
        exact hlen
      · exact hlen

theorem mapUpdate_not_mem (k : Nat) (f : BlockConsensusState → BlockConsensusState)
    (l : List (Nat × BlockConsensusState)) (h : ∀ p ∈ l, p.1 ≠ k) :
    mapUpdate k f l = l := by
  unfold mapUpdate
  have heq : ∀ p ∈ l, (if p.1 = k then (p.1, f p.2) else p) = p := by
    intro p hp
    rw [if_neg (h p hp)]
  induction l with
  | nil => rfl
  | cons q l ih =>
      rw [List.map_cons, heq q (List.mem_cons_self q l),
        ih (fun p hp => h p (List.mem_cons_of_mem q hp))
          (fun p hp => heq p (List.mem_cons_of_mem q hp))]

theorem cleanup_noop (ct : ConsensusTracker)
    (h : ct.blocks.length ≤ ct.maxHistory) : cleanupOldBlocks ct = ct := by
  unfold cleanupOldBlocks
  rw [if_pos h]

theorem sub64_twenty_le (a : Nat) (h : 20 ≤ a) : sub64 a 20 ≤ a - 20 := by
  unfold sub64
  rw [Nat.mod_eq_of_lt (show (20:Nat) < U64MOD by unfold U64MOD; norm_num)]
  have h1 : a + (U64MOD - 20) = (a - 20) + U64MOD := by
    unfold U64MOD at *
    omega
  rw [h1, Nat.add_mod_right]
  exact Nat.mod_le _ _

theorem TrackerInv_runOps (ops : List TrackerOp) :
    ∀ ct : ConsensusTracker, TrackerInv ct →
      (∀ op ∈ ops, op.blockNum < U64MOD) → TrackerInv (runOps ct ops) := by
  induction ops with
  | nil => intro ct h _; exact h
  | cons op ops ih =>
      intro ct h hops
      have h1 := TrackerInv_applyOp ct op h (hops op (List.mem_cons_self op ops))
      exact ih (applyOp ct op) h1 (fun o ho => hops o (List.mem_cons_of_mem op ho))

/-- Cleanup preserves the gap-free characterization: it only drops
entries, and the newest block's key is never below the eviction
threshold. -/
theorem ConsecChar_cleanup (b k : Nat) (st : ConsensusTracker)
    (hcur : st.currentBlock = b + k)
    (hmh : st.maxHistory = 20)
    (hnd : (st.blocks.map Prod.fst).Nodup)
    (hkeys : ∀ p ∈ st.blocks, b ≤ p.1 ∧ p.1 ≤ b + k)
    (htop : ∃ stp, lookupBlock st.blocks (b + k) = some stp)
    (hph : ∀ m s, lookupBlock st.blocks m = some s →
      s.phase = consecPhase b k m) :
    ConsecChar b k (cleanupOldBlocks st) := by
  refine ⟨?_, ?_, cleanup_keys_nodup st hnd, ?_, ?_, ?_⟩
  · rw [cleanup_current]; exact hcur
  · rw [cleanup_maxHistory]; exact hmh
  · intro p hp
    exact hkeys p (cleanup_mem_back st p hp)
  · obtain ⟨stp, hstp⟩ := htop
    refine ⟨stp, ?_⟩
    unfold cleanupOldBlocks
    split
    · exact hstp
    · rename_i hlen
      push_neg at hlen
      have hlenle := length_le_of_keys_in_range st.blocks b (b + k) hnd hkeys
      have h20 : 20 ≤ b + k := by
        rw [hmh] at hlen
        omega
      have hthr : sub64 st.currentBlock st.maxHistory ≤ b + k - 20 := by
        rw [hcur, hmh]
        exact sub64_twenty_le _ h20
      dsimp only
      rw [lookup_filter_ge, if_neg (by omega)]
      exact hstp
  · intro m s hs
    exact hph m s (cleanup_lookup_back st m s hs)

theorem OnBlockProposed_mono (now n : Nat) (hs : String) (c : Int)
    (ct : ConsensusTracker) (m : Nat) (b b2 : BlockConsensusState)
    (hb : lookupBlock ct.blocks m = some b)
    (hb2 : lookupBlock (OnBlockProposed now n hs c ct).blocks m = some b2) :
    phaseRank b.phase ≤ phaseRank b2.phase := by
  have h1 : lookupBlock (bumpCurrent n ct).blocks m = some b := by
    rw [bumpCurrent_blocks]
    exact hb
  have h2 := insert_lookup_fwd now n hs c (bumpCurrent n ct) m b h1
  obtain ⟨b3, h3, hr3⟩ := votedStep_lookup_fwd now n _ m b h2
  obtain ⟨b4, h4, hr4⟩ := finalStep_lookup_fwd now n _ m b3 h3
  unfold OnBlockProposed at hb2
  have h5 := cleanup_lookup_back _ m b2 hb2
  unfold updatePhases at h5
  rw [h4] at h5
  injection h5 with h5
  rw [← h5]
  exact le_trans hr3 hr4

theorem OnBlockFinalized_mono (now n : Nat) (ct : ConsensusTracker)
    (m : Nat) (b b2 : BlockConsensusState)
    (hb : lookupBlock ct.blocks m = some b)
    (hb2 : lookupBlock (OnBlockFinalized now n ct).blocks m = some b2) :
    phaseRank b.phase ≤ phaseRank b2.phase := by
  unfold OnBlockFinalized at hb2
  split at hb2
  · dsimp only at hb2
    rw [lookup_mapUpdate] at hb2
    split at hb2
    · rw [hb] at hb2
      injection hb2 with hb2
      rw [← hb2]
      exact toFinalized_rank now b
    · rw [hb] at hb2
      injection hb2 with hb2
      rw [← hb2]
  · rw [hb] at hb2
    injection hb2 with hb2
    rw [← hb2]

/-- `OnBlockVoted` on a tracked block sets its phase to VOTED with no
monotonicity check. -/
theorem OnBlockVoted_sets (now n : Nat) (ct : ConsensusTracker)
    (b : BlockConsensusState) (hb : lookupBlock ct.blocks n = some b) :
    lookupBlock (OnBlockVoted now n ct).blocks n = some (forceVoted now b) := by
  unfold OnBlockVoted
  rw [hb]
  dsimp only
  rw [lookup_mapUpdate, if_pos rfl, hb]
  rfl

/-- After the gap-free run `b, …, b+k` the tracker satisfies the full
phase characterization: newest block PROPOSED, its predecessor VOTED,
everything older FINALIZED. -/
theorem runConsec_char (time : Nat → Nat) (hash : Nat → String) (tx : Nat → Int)
    (b : Nat) : ∀ k, ConsecChar b k (runConsec time hash tx b k) := by
  intro k
  induction k with
  | zero =>
      show ConsecChar b 0 (OnBlockProposed (time b) b (hash b) (tx b) initTracker)
      have h1 : bumpCurrent b initTracker =
          { blocks := [], currentBlock := b, finalizedBlock := 0,
            maxHistory := 20 } := by
        unfold bumpCurrent initTracker
        split
        · rfl
        · rename_i hb
          simp only [not_lt, Nat.le_zero] at hb
          rw [hb]
      have h2 : insertIfAbsent (time b) b (hash b) (tx b)
          { blocks := [], currentBlock := b, finalizedBlock := 0,
            maxHistory := 20 } =
          { blocks := [(b, mkProposed (time b) b (hash b) (tx b))],
            currentBlock := b, finalizedBlock := 0, maxHistory := 20 } := by
        unfold insertIfAbsent
        dsimp only
        rw [if_pos (show (lookupBlock ([] : List (Nat × BlockConsensusState))
            b).isNone = true from rfl)]
      have h3 : votedStep (time b) b
          { blocks := [(b, mkProposed (time b) b (hash b) (tx b))],
            currentBlock := b, finalizedBlock := 0, maxHistory := 20 } =
          { blocks := [(b, mkProposed (time b) b (hash b) (tx b))],
            currentBlock := b, finalizedBlock := 0, maxHistory := 20 } := by
        unfold votedStep
        split
        · rename_i hb1
          have hne : ∀ p ∈ [(b, mkProposed (time b) b (hash b) (tx b))],
              p.1 ≠ b - 1 := by
            intro p hp
            rw [List.mem_singleton] at hp
            rw [hp]
            show b ≠ b - 1
            omega
          dsimp only
          rw [mapUpdate_not_mem _ _ _ hne]
        · rfl
      have h4 : finalStep (time b) b
          { blocks := [(b, mkProposed (time b) b (hash b) (tx b))],
            currentBlock := b, finalizedBlock := 0, maxHistory := 20 } =
          { blocks := [(b, mkProposed (time b) b (hash b) (tx b))],
            currentBlock := b, finalizedBlock := 0, maxHistory := 20 } := by
        unfold finalStep
        split
        · rename_i hb2
          have hnone : lookupBlock
              [(b, mkProposed (time b) b (hash b) (tx b))] (b - 2) = none := by
            rw [lookupBlock_cons, if_neg (by omega)]
            rfl
          dsimp only
          rw [hnone]
        · rfl
      have h5 : cleanupOldBlocks
          { blocks := [(b, mkProposed (time b) b (hash b) (tx b))],
            currentBlock := b, finalizedBlock := 0, maxHistory := 20 } =
          { blocks := [(b, mkProposed (time b) b (hash b) (tx b))],
            currentBlock := b, finalizedBlock := 0, maxHistory := 20 } :=
        cleanup_noop _ (by simp)
      unfold OnBlockProposed updatePhases
      rw [h1, h2, h3, h4, h5]
      refine ⟨rfl, rfl, by simp, ?_, ⟨mkProposed (time b) b (hash b) (tx b), ?_⟩, ?_⟩
      · intro p hp
        rw [List.mem_singleton] at hp
        rw [hp]
        exact ⟨le_refl b, by omega⟩
      · rw [lookupBlock_cons, if_pos (by omega)]
      · intro m st hst
        rw [lookupBlock_cons] at hst
        split at hst
        · rename_i hbm
          injection hst with hst
          subst hst
          unfold consecPhase
          rw [if_pos (by omega)]
          rfl
        · cases hst
  | succ k ih =>
      show ConsecChar b (k + 1)
        (OnBlockProposed (time (b + (k + 1))) (b + (k + 1)) (hash (b + (k + 1)))
          (tx (b + (k + 1))) (runConsec time hash tx b k))
      obtain ⟨sttop, hsttop⟩ := ih.top
      have hphtop : sttop.phase = .proposed := by
        have h := ih.phases (b + k) sttop hsttop
        unfold consecPhase at h
        rw [if_pos rfl] at h
        exact h
      set n := b + (k + 1) with hn
      set now := time (b + (k + 1)) with hnow
      set hs := hash (b + (k + 1)) with hhs
      set c := tx (b + (k + 1)) with hc
      set ct := runConsec time hash tx b k with hct
      have h1 : bumpCurrent n ct = { ct with currentBlock := n } := by
        unfold bumpCurrent
        rw [if_pos (by rw [ih.current]; omega)]
      have habs : lookupBlock ct.blocks n = none :=
        lookup_eq_none_of_gt ct.blocks (b + k) n
          (fun p hp => (ih.keysIn p hp).2) (by omega)
      have h2 : insertIfAbsent now n hs c { ct with currentBlock := n } =
          { ct with
            currentBlock := n,
            blocks := (n, mkProposed now n hs c) :: ct.blocks } := by
        unfold insertIfAbsent
        rw [if_pos (show (lookupBlock ({ ct with currentBlock := n } :
            ConsensusTracker).blocks n).isNone = true by
          dsimp only
          rw [habs]
          rfl)]
      have h3 : votedStep now n
          { ct with
            currentBlock := n,
            blocks := (n, mkProposed now n hs c) :: ct.blocks } =
          { ct with
            currentBlock := n,
            blocks := mapUpdate (b + k) (toVoted now)
              ((n, mkProposed now n hs c) :: ct.blocks) } := by
        unfold votedStep
        rw [if_pos (by omega)]
        dsimp only
        rw [show n - 1 = b + k by omega]
      have hrw : OnBlockProposed now n hs c ct =
          cleanupOldBlocks (finalStep now n
            { ct with
              currentBlock := n,
              blocks := mapUpdate (b + k) (toVoted now)
                ((n, mkProposed now n hs c) :: ct.blocks) }) := by
        unfold OnBlockProposed updatePhases
        rw [h1, h2, h3]
      rw [hrw]
      set blks3 := mapUpdate (b + k) (toVoted now)
        ((n, mkProposed now n hs c) :: ct.blocks) with hblks3
      -- lookups in the intermediate map
      have hlook_n : lookupBlock blks3 n = some (mkProposed now n hs c) := by
        rw [hblks3, lookup_mapUpdate, if_neg (by omega), lookupBlock_cons,
          if_pos rfl]
      have hlook_N : lookupBlock blks3 (b + k) = some (toVoted now sttop) := by
        rw [hblks3, lookup_mapUpdate, if_pos rfl, lookupBlock_cons,
          if_neg (by omega), hsttop]
        rfl
      have hlook_other : ∀ m, m ≠ n → m ≠ b + k →
          lookupBlock blks3 m = lookupBlock ct.blocks m := by
        intro m hm1 hm2
        rw [hblks3, lookup_mapUpdate, if_neg hm2, lookupBlock_cons,
          if_neg (fun h => hm1 h.symm)]
      have hvotedPhase : (toVoted now sttop).phase = .voted := by
        unfold toVoted
        rw [if_pos hphtop]
      have hkeys3 : blks3.map Prod.fst = n :: ct.blocks.map Prod.fst := by
        rw [hblks3, keys_mapUpdate, List.map_cons]
      have hnotin : ∀ q ∈ ct.blocks, q.1 ≠ n :=
        (lookup_eq_none_iff ct.blocks n).mp habs
      have hnd3 : (blks3.map Prod.fst).Nodup := by
        rw [hkeys3]
        refine List.Nodup.cons ?_ ih.nodup
        intro hmem
        obtain ⟨q, hq, hqe⟩ := List.mem_map.mp hmem
        exact hnotin q hq hqe
      have hkeysIn3 : ∀ p ∈ blks3, b ≤ p.1 ∧ p.1 ≤ n := by
        intro p hp
        rw [hblks3] at hp
        obtain ⟨q, hq, hqe⟩ := mem_mapUpdate_fst _ _ _ p hp
        rcases List.mem_cons.mp hq with hq1 | hq2
        · rw [hqe, hq1]
          exact ⟨by omega, le_refl n⟩
        · have := ih.keysIn q hq2
          rw [hqe]
          exact ⟨this.1, by omega⟩
      have hph3 : ∀ m s, lookupBlock blks3 m = some s →
          (1 ≤ b + k → m ≠ b + k - 1) → s.phase = consecPhase b (k + 1) m := by
        intro m s hsm hside
        by_cases hm1 : m = n
        · subst hm1
          rw [hlook_n] at hsm
          injection hsm with hsm
          subst hsm
          unfold consecPhase
          rw [if_pos hn.symm]
          rfl
        · by_cases hm2 : m = b + k
          · subst hm2
            rw [hlook_N] at hsm
            injection hsm with hsm
            subst hsm
            unfold consecPhase
            rw [if_neg (by omega), if_pos (by omega)]
            exact hvotedPhase
          · rw [hlook_other m hm1 hm2] at hsm
            have hmem := lookup_mem ct.blocks m s hsm
            have hrange := ih.keysIn (m, s) hmem
            have hmlt : m < b + k := by
              rcases Nat.lt_or_ge m (b + k) with h | h
              · exact h
              · exact absurd (le_antisymm hrange.2 h) hm2
            have hside2 : m ≠ b + k - 1 := hside (by omega)
            have hold := ih.phases m s hsm
            unfold consecPhase at hold
            rw [if_neg hm2, if_neg (by omega)] at hold
            unfold consecPhase
            rw [if_neg (by omega), if_neg (by omega)]
            exact hold
      by_cases hNpos : 1 ≤ b + k
      · have hn2 : n - 2 = b + k - 1 := by omega
        rcases hold : lookupBlock ct.blocks (b + k - 1) with _ | bOld
        · -- predecessor of N untracked: the FINALIZED branch is skipped
          have h4 : finalStep now n { ct with currentBlock := n, blocks := blks3 } =
              { ct with currentBlock := n, blocks := blks3 } := by
            unfold finalStep
            rw [if_pos (by omega)]
            dsimp only
            rw [hn2, hlook_other (b + k - 1) (by omega) (by omega), hold]
          rw [h4]
          refine ConsecChar_cleanup b (k + 1) _ rfl ih.maxHist hnd3 hkeysIn3
            ⟨mkProposed now n hs c, hlook_n⟩ ?_
          intro m s hsm
          refine hph3 m s hsm ?_
          intro _ hmeq
          rw [hmeq, hlook_other (b + k - 1) (by omega) (by omega), hold] at hsm
          cases hsm
        · -- predecessor of N is VOTED and now becomes FINALIZED
          have hvOld : bOld.phase = .voted := by
            have h := ih.phases (b + k - 1) bOld hold
            unfold consecPhase at h
            rw [if_neg (by omega), if_pos (by omega)] at h
            exact h
          have hlookNm1 : lookupBlock blks3 (b + k - 1) = some bOld := by
            rw [hlook_other (b + k - 1) (by omega) (by omega), hold]
          have h4 : finalStep now n { ct with currentBlock := n, blocks := blks3 } =
              { ct with
                currentBlock := n,
                finalizedBlock := b + k - 1,
                blocks := mapUpdate (b + k - 1) (toFinalized now) blks3 } := by
            unfold finalStep
            rw [if_pos (by omega)]
            dsimp only
            rw [hn2, hlookNm1]
            dsimp only
            rw [if_pos (by rw [hvOld]; decide)]
          rw [h4]
          refine ConsecChar_cleanup b (k + 1) _ rfl ih.maxHist ?_ ?_
            ⟨mkProposed now n hs c, ?_⟩ ?_
          · dsimp only
            rw [keys_mapUpdate]
            exact hnd3
          · dsimp only
            intro p hp
            obtain ⟨q, hq, hqe⟩ := mem_mapUpdate_fst _ _ _ p hp
            rw [hqe]
            exact hkeysIn3 q hq
          · dsimp only
            rw [lookup_mapUpdate, if_neg (by omega)]
            exact hlook_n
          · dsimp only
            intro m s hsm
            rw [lookup_mapUpdate] at hsm
            by_cases hmeq : m = b + k - 1
            · rw [if_pos hmeq, hmeq, hlookNm1] at hsm
              injection hsm with hsm
              subst hsm
              unfold consecPhase
              rw [if_neg (by omega), if_neg (by omega)]
              rfl
            · rw [if_neg hmeq] at hsm
              exact hph3 m s hsm (fun _ => hmeq)
      · -- b + k = 0: n = 1, the FINALIZED branch is skipped entirely
        have h4 : finalStep now n { ct with currentBlock := n, blocks := blks3 } =
            { ct with currentBlock := n, blocks := blks3 } := by
          unfold finalStep
          rw [if_neg (by omega)]
        rw [h4]
        refine ConsecChar_cleanup b (k + 1) _ rfl ih.maxHist hnd3 hkeysIn3
          ⟨mkProposed now n hs c, hlook_n⟩ ?_
        intro m s hsm
        exact hph3 m s hsm (fun h => absurd h (by omega))

/-! ### Flow-accounting lemmas -/

theorem inflow_nil (node : String) : inflow [] node = 0 := rfl

theorem outflow_nil (node : String) : outflow [] node = 0 := rfl

theorem inflow_cons (l : WfLink) (ls : List WfLink) (node : String) :
    inflow (l :: ls) node =
      (if l.target = node then l.value else 0) + inflow ls node := by
  unfold inflow
  rw [List.filter_cons]
  split
  · rename_i h
    simp only [decide_eq_true_eq] at h
    rw [if_pos h]
    simp
  · rename_i h
    simp only [decide_eq_true_eq] at h
    rw [if_neg h]
    simp

theorem outflow_cons (l : WfLink) (ls : List WfLink) (node : String) :
    outflow (l :: ls) node =
      (if l.source = node then l.value else 0) + outflow ls node := by
  unfold outflow
  rw [List.filter_cons]
  split
  · rename_i h
    simp only [decide_eq_true_eq] at h
    rw [if_pos h]
    simp
  · rename_i h
    simp only [decide_eq_true_eq] at h
    rw [if_neg h]
    simp

theorem inflow_append (l1 l2 : List WfLink) (node : String) :
    inflow (l1 ++ l2) node = inflow l1 node + inflow l2 node := by
  unfold inflow
  rw [List.filter_append, List.map_append, List.sum_append]

theorem outflow_append (l1 l2 : List WfLink) (node : String) :
    outflow (l1 ++ l2) node = outflow l1 node + outflow l2 node := by
  unfold outflow
  rw [List.filter_append, List.map_append, List.sum_append]

theorem inflow_ite (c : Prop) [Decidable c] (l : List WfLink) (node : String) :
    inflow (if c then l else []) node = if c then inflow l node else 0 := by
  split <;> rfl

theorem outflow_ite (c : Prop) [Decidable c] (l : List WfLink) (node : String) :
    outflow (if c then l else []) node = if c then outflow l node else 0 := by
  split <;> rfl

theorem mem_ite_list (c : Prop) [Decidable c] (L : List WfLink) (l : WfLink)
    (h : l ∈ (if c then L else [])) : c ∧ l ∈ L := by
  split at h
  · rename_i hc
    exact ⟨hc, h⟩
  · cases h

/-- Every link produced by the Prometheus link builder is guarded by
the strict positivity of its own value. -/
theorem promLinks_pos (r p s nn ba f fe : Int) :
    ∀ l ∈ promLinks r p s nn ba f fe, 0 < l.value := by
  intro l hl
  unfold promLinks at hl
  simp only [List.mem_append] at hl
  rcases hl with ((((((((h | h) | h) | h) | h) | h) | h) | h) | h) <;>
    · obtain ⟨hc, hm⟩ := mem_ite_list _ _ _ h
      simp only [List.mem_cons, List.not_mem_nil, or_false] at hm
      first
      | (rw [hm]; exact hc)
      | (rcases hm with hm | hm | hm <;> rw [hm] <;> exact hc)

/-- Conservation at every interior node of the Prometheus link
builder, assuming the per-interval counts are non-negative and no
intermediate flow is negative. -/
theorem promLinks_conserved (r p s nn ba f fe : Int)
    (h1 : 0 ≤ r) (h2 : 0 ≤ p) (h3 : 0 ≤ s + nn) (h4 : 0 ≤ ba + f + fe)
    (h5 : 0 ≤ r + p - s - nn) (h6 : 0 ≤ r + p - s - nn - ba - f - fe) :
    conservedAt (promLinks r p s nn ba f fe) "mempool" ∧
    conservedAt (promLinks r p s nn ba f fe) "block_building" ∧
    conservedAt (promLinks r p s nn ba f fe) "consensus_proposed" ∧
    conservedAt (promLinks r p s nn ba f fe) "consensus_voted" ∧
    conservedAt (promLinks r p s nn ba f fe) "consensus_finalized" ∧
    conservedAt (promLinks r p s nn ba f fe) "execution" ∧
    conservedAt (promLinks r p s nn ba f fe) "state_update" := by
  refine ⟨?_, ?_, ?_, ?_, ?_, ?_, ?_⟩ <;>
    · unfold conservedAt
      simp [promLinks, inflow_append, outflow_append, inflow_ite, outflow_ite,
        inflow_cons, outflow_cons, inflow_nil, outflow_nil]
      all_goals (split_ifs <;> omega)

/-! ## Claim theorems -/

/-- C10 (confirmed): with fewer than two entries in the recent-blocks
window, `calculateAverageTPS` and `calculateOneSecondTPS` return 0,
and `getInstantTPS` returns 0 on an empty window; in these cases the
accessors return the constant 0 and never divide by the window
contents. -/
theorem tps_accessors_small_window (s : MonadSubscriber) :
    (s.recentBlocks.length < 2 →
      calculateAverageTPS s = 0 ∧ calculateOneSecondTPS s = 0) ∧
    (s.recentBlocks = [] → getInstantTPS s = 0) := by
  constructor
  · intro h
    constructor
    · unfold calculateAverageTPS
      rw [if_pos h]
    · unfold calculateOneSecondTPS
      rw [if_pos h]
  · intro h
    unfold getInstantTPS
    rw [if_pos (by rw [h]; rfl)]

theorem tps_accessors_small_window_witness :
    calculateAverageTPS newMonadSubscriber = 0 ∧
    calculateOneSecondTPS newMonadSubscriber = 0 ∧
    getInstantTPS newMonadSubscriber = 0 := by
  have h := tps_accessors_small_window newMonadSubscriber
  exact ⟨(h.1 (by decide)).1, (h.1 (by decide)).2, h.2 rfl⟩

/-- C9 (corrected): the claim says every appended TPS-history point is
a 5-tuple whose fifth component is the block's transaction count; in
the code a point is the 4-element array
`[oneSecondTPS, 0, avgTPS, instantTPS]` — there is no fifth
component.  At a concrete append the stored point has length 4, not 5,
and has no fifth entry. -/
theorem tps_point_counterexample :
    (addTPSToHistory subSample 3 4 6).tpsHistory = [[3, 0, 4, 6]] ∧
    ¬ (([3, 0, 4, 6] : List ℚ).length = 5) ∧
    (([3, 0, 4, 6] : List ℚ).get? 4 = none) := by
  refine ⟨rfl, by decide, rfl⟩

/-- C9 (amended): every point appended to the TPS history is the
4-tuple `[one-second TPS, vote TPS, average TPS, instant TPS]` whose
second component (vote TPS) is always 0; there is no tx-count
component. -/
theorem tps_point_shape (s : MonadSubscriber) (a bq cq : ℚ)
    (hcap : 0 < s.maxHistorySize) :
    (addTPSToHistory s a bq cq).tpsHistory.getLast? = some [a, 0, bq, cq] ∧
    ([a, 0, bq, cq] : List ℚ).length = 4 := by
  refine ⟨?_, rfl⟩
  unfold addTPSToHistory
  dsimp only
  split
  · rename_i hlen
    have hne : s.tpsHistory ≠ [] := by
      intro h
      rw [h] at hlen
      simp at hlen
      omega
    have h1 : 1 ≤ s.tpsHistory.length := by
      cases hh : s.tpsHistory with
      | nil => exact absurd hh hne
      | cons x xs => simp [hh]
    rw [List.drop_append_of_le_length h1, List.getLast?_concat]
  · rw [List.getLast?_concat]

theorem tps_point_shape_witness :
    (addTPSToHistory subSample 3 4 6).tpsHistory.getLast? = some [3, 0, 4, 6] :=
  (tps_point_shape subSample 3 4 6 (by decide)).1

/-- C8 (corrected): the claim says a TPS-history point is appended on
a tick iff the observed block height differs from the previous tick's
height.  The loop keeps no previous height and never compares heights:
with a connected subscriber, two consecutive ticks that both observe
height 100 (the same `ConsensusMetrics`) each append a point — history
length goes 1, then 2. -/
theorem tps_history_append_counterexample :
    ((firedancerTick (some cmSample) (some subSample) 0).1).map
      (fun s => s.tpsHistory.length) = some 1 ∧
    ((firedancerTick (some cmSample)
        (firedancerTick (some cmSample) (some subSample) 0).1
        (firedancerTick (some cmSample) (some subSample) 0).2).1).map
      (fun s => s.tpsHistory.length) = some 2 := by
  exact ⟨rfl, rfl⟩

/-- C8 (amended): on every 200 ms tick, a point is appended to the
subscriber's TPS history iff the consensus-metrics fetch succeeded and
the subscriber is non-nil and connected; the block height observed on
the tick plays no role (the loop tracks no previous height). -/
theorem tps_history_append_rule :
    (∀ (cm : ConsensusMetrics) (s : MonadSubscriber) (pid : Nat),
      s.isConnected = true →
      (firedancerTick (some cm) (some s) pid).1 =
        some (addTPSToHistory s (calculateOneSecondTPS s)
          (calculateAverageTPS s) (getInstantTPS s))) ∧
    (∀ (cm : ConsensusMetrics) (s : MonadSubscriber) (pid : Nat),
      s.isConnected = false →
      (firedancerTick (some cm) (some s) pid).1 = some s) ∧
    (∀ (sub : Option MonadSubscriber) (pid : Nat),
      (firedancerTick none sub pid).1 = sub) := by
  refine ⟨?_, ?_, ?_⟩
  · intro cm s pid hconn
    unfold firedancerTick
    dsimp only
    rw [if_pos hconn]
  · intro cm s pid hconn
    unfold firedancerTick
    dsimp only
    rw [if_neg (by rw [hconn]; simp)]
  · intro sub pid
    rfl

theorem tps_history_append_rule_witness :
    (firedancerTick (some cmSample) (some subSample) 0).1 =
      some (addTPSToHistory subSample (calculateOneSecondTPS subSample)
        (calculateAverageTPS subSample) (getInstantTPS subSample)) :=
  tps_history_append_rule.1 cmSample subSample 0 rfl

/-- C4 (corrected): the claim guards the rate computation on the
previous commits total being "non-zero"; the code requires it to be
strictly positive (`prevMetrics.TxCommitsTotal > 0`).  With a previous
total of -1 (non-zero) and Δt = 5 > 0, the claim predicts
TPS = (9 - (-1)) / 5 = 2, but the code publishes 0. -/
theorem prometheus_rate_counterexample :
    (finishParse (mkScraped (-1) 0 0 0 0 0 0 0 0 0 0)
      (mkScraped 9 0 0 0 0 0 0 0 0 0 0) 5).TPS60s = 0 ∧
    ¬ ((mkScraped (-1) 0 0 0 0 0 0 0 0 0 0).TxCommitsTotal = 0) ∧
    (0 : ℚ) < 5 ∧
    ¬ (((mkScraped 9 0 0 0 0 0 0 0 0 0 0).TxCommitsTotal -
        (mkScraped (-1) 0 0 0 0 0 0 0 0 0 0).TxCommitsTotal) / 5 = 0) := by
  refine ⟨?_, by norm_num [mkScraped], by norm_num, by norm_num [mkScraped]⟩
  unfold finishParse
  rw [if_neg (by norm_num [mkScraped])]
  rfl

/-- C4 (amended): for every scrape after the first, if the previous
snapshot's cumulative commits total is strictly positive (not merely
non-zero) and Δt > 0, the published TPS is (commits_now −
commits_prev)/Δt and each per-counter rate is (new − old)/Δt; if
Δt ≤ 0 the published TPS and rates are the fresh snapshot's zero
values (never NaN — no division happens). -/
theorem prometheus_rate_derivation (prev : PrometheusMetrics)
    (tct bc own fwd sig nonce fee bal full pending tracked timeDiff : ℚ) :
    (0 < timeDiff → 0 < prev.TxCommitsTotal →
      (finishParse prev
          (mkScraped tct bc own fwd sig nonce fee bal full pending tracked)
          timeDiff) =
        { mkScraped tct bc own fwd sig nonce fee bal full pending tracked with
          TPS60s := (tct - prev.TxCommitsTotal) / timeDiff,
          InsertOwnedTxsRate := (own - prev.InsertOwnedTxsTotal) / timeDiff,
          InsertForwardedTxsRate :=
            (fwd - prev.InsertForwardedTxsTotal) / timeDiff,
          DropInvalidSignatureRate :=
            (sig - prev.DropInvalidSignatureTotal) / timeDiff,
          DropNonceTooLowRate := (nonce - prev.DropNonceTooLowTotal) / timeDiff,
          DropFeeTooLowRate := (fee - prev.DropFeeTooLowTotal) / timeDiff,
          DropInsufficientBalanceRate :=
            (bal - prev.DropInsufficientBalanceTotal) / timeDiff,
          DropPoolFullRate := (full - prev.DropPoolFullTotal) / timeDiff }) ∧
    (timeDiff ≤ 0 →
      (finishParse prev
          (mkScraped tct bc own fwd sig nonce fee bal full pending tracked)
          timeDiff).TPS60s = 0 ∧
      (finishParse prev
          (mkScraped tct bc own fwd sig nonce fee bal full pending tracked)
          timeDiff).InsertOwnedTxsRate = 0 ∧
      (finishParse prev
          (mkScraped tct bc own fwd sig nonce fee bal full pending tracked)
          timeDiff).InsertForwardedTxsRate = 0 ∧
      (finishParse prev
          (mkScraped tct bc own fwd sig nonce fee bal full pending tracked)
          timeDiff).DropInvalidSignatureRate = 0 ∧
      (finishParse prev
          (mkScraped tct bc own fwd sig nonce fee bal full pending tracked)
          timeDiff).DropNonceTooLowRate = 0 ∧
      (finishParse prev
          (mkScraped tct bc own fwd sig nonce fee bal full pending tracked)
          timeDiff).DropFeeTooLowRate = 0 ∧
      (finishParse prev
          (mkScraped tct bc own fwd sig nonce fee bal full pending tracked)
          timeDiff).DropInsufficientBalanceRate = 0 ∧
      (finishParse prev
          (mkScraped tct bc own fwd sig nonce fee bal full pending tracked)
          timeDiff).DropPoolFullRate = 0) := by
  constructor
  · intro h1 h2
    unfold finishParse
    rw [if_pos ⟨h1, h2⟩]
    simp [mkScraped]
  · intro h1
    unfold finishParse
    rw [if_neg (by intro hc; exact absurd hc.1 (not_lt.mpr h1))]
    refine ⟨rfl, rfl, rfl, rfl, rfl, rfl, rfl, rfl⟩

/-- A scrape where commits went 100 → 150 over 5 s publishes
TPS = 10 (the spec's own cold-start scenario). -/
theorem prometheus_rate_derivation_witness :
    (finishParse (mkScraped 100 0 10 0 0 0 0 0 0 0 0)
      (mkScraped 150 0 20 0 0 0 0 0 0 0 0) 5).TPS60s = 10 := by
  have h := (prometheus_rate_derivation (mkScraped 100 0 10 0 0 0 0 0 0 0 0)
    150 0 20 0 0 0 0 0 0 0 0 5).1 (by norm_num) (by norm_num [mkScraped])
  rw [h]
  norm_num [mkScraped]

/-- C5 (corrected): the claim says the IPC-sourced waterfall carries
`metadata.source = "real_ipc_metrics"`.  `generateMonadWaterfallFromIPC`
is an unimplemented stub that returns the mock waterfall, so when the
IPC source is selected the output's source tag is `"mock_data"`. -/
theorem ipc_source_counterexample :
    (GenerateMonadWaterfall none (some (true, ipcSample)) none).source
      = "mock_data" ∧
    ¬ ((GenerateMonadWaterfall none (some (true, ipcSample)) none).source
      = "real_ipc_metrics") := by
  exact ⟨rfl, by decide⟩

/-- C5 (amended): when the Prometheus source does not qualify and the
IPC collector is healthy, the IPC path is selected, but its generator
is a stub delegating to the mock generator: the returned graph is the
mock waterfall and `metadata.source = "mock_data"`. -/
theorem ipc_source_is_mock (prom : Option (Bool × PrometheusMetrics))
    (ipc : Option (Bool × MonadRealMetrics))
    (sub : Option (Bool × Option BlockHeader))
    (hprom : ¬ promQualifies prom) (hipc : ipcHealthy ipc) :
    GenerateMonadWaterfall prom ipc sub = generateMonadMockWaterfall ∧
    (GenerateMonadWaterfall prom ipc sub).source = "mock_data" := by
  have hmain : GenerateMonadWaterfall prom ipc sub = generateMonadMockWaterfall := by
    cases ipc with
    | none => exact absurd hipc (fun h => h)
    | some p =>
        obtain ⟨flag, m⟩ := p
        have hflag : flag = true := hipc
        subst hflag
        have hlater : waterfallFromIPCOrLater (some (true, m)) sub =
            generateMonadMockWaterfall := by
          unfold waterfallFromIPCOrLater
          dsimp only
          rw [if_pos rfl]
          rfl
        cases prom with
        | none =>
            unfold GenerateMonadWaterfall
            dsimp only
            exact hlater
        | some q =>
            obtain ⟨healthy, pm⟩ := q
            have hprom2 : ¬ (healthy = true ∧ 0 < pm.TPS60s ∧
                (0 < pm.InsertOwnedTxsRate ∨ 0 < pm.InsertForwardedTxsRate)) :=
              hprom
            unfold GenerateMonadWaterfall
            dsimp only
            rw [if_neg hprom2]
            exact hlater
  exact ⟨hmain, by rw [hmain]; rfl⟩

theorem ipc_source_is_mock_witness :
    GenerateMonadWaterfall none (some (true, ipcSample)) none =
      generateMonadMockWaterfall :=
  (ipc_source_is_mock none (some (true, ipcSample)) none
    (fun h => h) rfl).1

/-- The links the generator emits for `promSampleBad`: 10
transactions enter the mempool, 100 drops leave it, and the negative
onward flow (10 - 100 = -90) is omitted by the positivity guard. -/
theorem promSampleBad_links :
    (generateMonadWaterfallFromPrometheus promSampleBad).links =
      [⟨"submission_rpc", "mempool", 10⟩, ⟨"mempool", "dropped", 100⟩] := by
  have e1 : i64trunc (promSampleBad.InsertOwnedTxsRate * 5) = 10 := by
    have h : promSampleBad.InsertOwnedTxsRate * 5 = (10 : ℚ) := by
      norm_num [promSampleBad]
    rw [h]
    decide
  have e2 : i64trunc (promSampleBad.InsertForwardedTxsRate * 5) = 0 := by
    have h : promSampleBad.InsertForwardedTxsRate * 5 = (0 : ℚ) := by
      norm_num [promSampleBad]
    rw [h]
    decide
  have e3 : i64trunc (promSampleBad.DropInvalidSignatureRate * 5) = 100 := by
    have h : promSampleBad.DropInvalidSignatureRate * 5 = (100 : ℚ) := by
      norm_num [promSampleBad]
    rw [h]
    decide
  have e4 : i64trunc (promSampleBad.DropNonceTooLowRate * 5) = 0 := by
    have h : promSampleBad.DropNonceTooLowRate * 5 = (0 : ℚ) := by
      norm_num [promSampleBad]
    rw [h]
    decide
  have e5 : i64trunc (promSampleBad.DropInsufficientBalanceRate * 5) = 0 := by
    have h : promSampleBad.DropInsufficientBalanceRate * 5 = (0 : ℚ) := by
      norm_num [promSampleBad]
    rw [h]
    decide
  have e6 : i64trunc (promSampleBad.DropPoolFullRate * 5) = 0 := by
    have h : promSampleBad.DropPoolFullRate * 5 = (0 : ℚ) := by
      norm_num [promSampleBad]
    rw [h]
    decide
  have e7 : i64trunc (promSampleBad.DropFeeTooLowRate * 5) = 0 := by
    have h : promSampleBad.DropFeeTooLowRate * 5 = (0 : ℚ) := by
      norm_num [promSampleBad]
    rw [h]
    decide
  show promLinks (i64trunc (promSampleBad.InsertOwnedTxsRate * 5))
      (i64trunc (promSampleBad.InsertForwardedTxsRate * 5))
      (i64trunc (promSampleBad.DropInvalidSignatureRate * 5))
      (i64trunc (promSampleBad.DropNonceTooLowRate * 5))
      (i64trunc (promSampleBad.DropInsufficientBalanceRate * 5))
      (i64trunc (promSampleBad.DropPoolFullRate * 5))
      (i64trunc (promSampleBad.DropFeeTooLowRate * 5)) = _
  rw [e1, e2, e3, e4, e5, e6, e7]
  decide

/-- C6 (corrected): flow conservation fails on a produced graph.  With
a qualifying Prometheus snapshot whose signature-drop rate (20/s)
exceeds its insert rates (2/s owned), the computed mempool outflow
`toBlockBuilding = 10 - 100 = -90` is negative, so its link is
omitted while the drop link (value 100) is kept: the `mempool` node
receives 10 but emits 100. -/
theorem waterfall_conservation_counterexample :
    GenerateMonadWaterfall (some (true, promSampleBad)) none none =
      generateMonadWaterfallFromPrometheus promSampleBad ∧
    (generateMonadWaterfallFromPrometheus promSampleBad).links =
      [⟨"submission_rpc", "mempool", 10⟩, ⟨"mempool", "dropped", 100⟩] ∧
    ¬ conservedAt (generateMonadWaterfallFromPrometheus promSampleBad).links
      "mempool" := by
  refine ⟨rfl, promSampleBad_links, ?_⟩
  unfold conservedAt
  rw [promSampleBad_links]
  decide

/-- C6 (amended): flow conservation at every interior node holds
unconditionally for the block-estimation and mock graphs (the IPC path
returns the mock graph), and for the Prometheus graph whenever the
truncated per-interval counts are non-negative and the computed
mempool and block-building outflows are non-negative; when a computed
flow is negative its link is omitted and conservation can fail at that
node.  `outflow` includes the edge routed to `dropped`, so
`conservedAt` is the spec's "Σ in = Σ out + dropped". -/
theorem waterfall_conservation :
    (∀ block : BlockHeader,
      conservedAt (generateMonadWaterfallFromBlock block).links "mempool" ∧
      conservedAt (generateMonadWaterfallFromBlock block).links "block_building" ∧
      conservedAt (generateMonadWaterfallFromBlock block).links
        "consensus_proposed" ∧
      conservedAt (generateMonadWaterfallFromBlock block).links
        "consensus_voted" ∧
      conservedAt (generateMonadWaterfallFromBlock block).links
        "consensus_finalized" ∧
      conservedAt (generateMonadWaterfallFromBlock block).links "execution" ∧
      conservedAt (generateMonadWaterfallFromBlock block).links "state_update") ∧
    (conservedAt generateMonadMockWaterfall.links "mempool" ∧
      conservedAt generateMonadMockWaterfall.links "block_building" ∧
      conservedAt generateMonadMockWaterfall.links "consensus_proposed" ∧
      conservedAt generateMonadMockWaterfall.links "consensus_voted" ∧
      conservedAt generateMonadMockWaterfall.links "consensus_finalized" ∧
      conservedAt generateMonadMockWaterfall.links "execution" ∧
      conservedAt generateMonadMockWaterfall.links "state_update") ∧
    (∀ metrics : PrometheusMetrics,
      (generateMonadWaterfallFromPrometheus metrics).links =
        promLinks (i64trunc (metrics.InsertOwnedTxsRate * 5))
          (i64trunc (metrics.InsertForwardedTxsRate * 5))
          (i64trunc (metrics.DropInvalidSignatureRate * 5))
          (i64trunc (metrics.DropNonceTooLowRate * 5))
          (i64trunc (metrics.DropInsufficientBalanceRate * 5))
          (i64trunc (metrics.DropPoolFullRate * 5))
          (i64trunc (metrics.DropFeeTooLowRate * 5))) ∧
    (∀ r p s nn ba f fe : Int, 0 ≤ r → 0 ≤ p → 0 ≤ s + nn → 0 ≤ ba + f + fe →
      0 ≤ r + p - s - nn → 0 ≤ r + p - s - nn - ba - f - fe →
      conservedAt (promLinks r p s nn ba f fe) "mempool" ∧
      conservedAt (promLinks r p s nn ba f fe) "block_building" ∧
      conservedAt (promLinks r p s nn ba f fe) "consensus_proposed" ∧
      conservedAt (promLinks r p s nn ba f fe) "consensus_voted" ∧
      conservedAt (promLinks r p s nn ba f fe) "consensus_finalized" ∧
      conservedAt (promLinks r p s nn ba f fe) "execution" ∧
      conservedAt (promLinks r p s nn ba f fe) "state_update") := by
  refine ⟨?_, ?_, fun _ => rfl, ?_⟩
  · intro block
    refine ⟨?_, ?_, ?_, ?_, ?_, ?_, ?_⟩ <;>
      · unfold conservedAt inflow outflow generateMonadWaterfallFromBlock
        simp
  · refine ⟨?_, ?_, ?_, ?_, ?_, ?_, ?_⟩ <;> · unfold conservedAt; decide
  · intro r p s nn ba f fe h1 h2 h3 h4 h5 h6
    exact promLinks_conserved r p s nn ba f fe h1 h2 h3 h4 h5 h6

theorem waterfall_conservation_witness :
    conservedAt (promLinks 10 0 2 0 1 0 0) "mempool" :=
  (waterfall_conservation.2.2.2 10 0 2 0 1 0 0 (by decide) (by decide)
    (by decide) (by decide) (by decide) (by decide)).1

/-- C7 (corrected): the claim says every emitted link has a strictly
positive value.  The block-estimation path emits its full fixed link
list with no positivity guard: a block with zero transactions yields
links of value 0. -/
theorem waterfall_zero_link_counterexample :
    GenerateMonadWaterfall none none (some (true, some blockSampleZero)) =
      generateMonadWaterfallFromBlock blockSampleZero ∧
    (generateMonadWaterfallFromBlock blockSampleZero).links.all
      (fun l => 0 < l.value) = false := by
  exact ⟨rfl, rfl⟩

/-- C7 (amended): on the Prometheus path every emitted link has a
strictly positive value (each append is guarded by the positivity of
the value it emits), and likewise for the mock graph (hence the IPC
path); the block-estimation path emits its links unconditionally, so
zero or negative values are possible there. -/
theorem waterfall_links_positive :
    (∀ metrics : PrometheusMetrics,
      ∀ l ∈ (generateMonadWaterfallFromPrometheus metrics).links, 0 < l.value) ∧
    (∀ l ∈ generateMonadMockWaterfall.links, 0 < l.value) := by
  constructor
  · intro metrics l hl
    exact promLinks_pos _ _ _ _ _ _ _ l hl
  · intro l
    revert l
    decide

theorem waterfall_links_positive_witness :
    (0 : Int) <
      ({ source := "submission_rpc", target := "mempool", value := 10 } :
        WfLink).value := by
  apply waterfall_links_positive.1 promSampleBad
  rw [promSampleBad_links]
  decide

/-- C1 (corrected): the claim says that after observing block `N`
every tracked block ≤ `N - 2` is FINALIZED, and that on a gap
(observe 5, then 8) block 5 transitions to FINALIZED.  The code only
ever touches blocks `N - 1` and `N - 2`: after observing 5 and then 8,
block 5 satisfies 5 ≤ 8 - 2 yet remains PROPOSED. -/
theorem consensus_gap_counterexample :
    GetBlockPhase (OnBlockProposed 1 8 "h8" 0
      (OnBlockProposed 0 5 "h5" 0 initTracker)) 5 = "proposed" ∧
    ¬ (GetBlockPhase (OnBlockProposed 1 8 "h8" 0
      (OnBlockProposed 0 5 "h5" 0 initTracker)) 5 = "finalized") ∧
    5 + 2 ≤ 8 := by
  exact ⟨rfl, by decide, by decide⟩

/-- C1 (amended): for gap-free ascending observation runs
`b, b+1, …, b+k` the invariant holds: every tracked block at distance
at least 2 below the newest is FINALIZED, the tracked block directly
below the newest is VOTED, and the newest block is PROPOSED.  On a
block-number gap the skipped updates never happen (see the
counterexample: the stranded block keeps its old phase; the missing
numbers are not fabricated). -/
theorem consensus_gapfree_phases (time : Nat → Nat) (hash : Nat → String)
    (tx : Nat → Int) (b k : Nat) :
    (∀ m st, lookupBlock (runConsec time hash tx b k).blocks m = some st →
      (m + 2 ≤ b + k → st.phase = Phase.finalized) ∧
      (m + 1 = b + k → st.phase = Phase.voted)) ∧
    GetBlockPhase (runConsec time hash tx b k) (b + k) = "proposed" := by
  have hch := runConsec_char time hash tx b k
  constructor
  · intro m st hst
    have hph := hch.phases m st hst
    unfold consecPhase at hph
    constructor
    · intro hm
      rw [if_neg (by omega), if_neg (by omega)] at hph
      exact hph
    · intro hm
      rw [if_neg (by omega), if_pos hm] at hph
      exact hph
  · obtain ⟨stp, hstp⟩ := hch.top
    have hph := hch.phases _ _ hstp
    unfold consecPhase at hph
    rw [if_pos rfl] at hph
    unfold GetBlockPhase
    rw [hstp]
    dsimp only
    rw [hph]
    rfl

/-- Observing 0,1,2,3,4 gap-free: block 1 (at distance 3 below the
newest) is FINALIZED and block 4 is PROPOSED. -/
theorem consensus_gapfree_phases_witness :
    ((1 : Nat) + 2 ≤ 0 + 4) ∧
    lookupBlock (runConsec (fun t => t) (fun _ => "") (fun _ => 0) 0 4).blocks 1
      = some { blockNumber := 1, blockHash := "", phase := Phase.finalized,
               proposedAt := 1, votedAt := some 2, finalizedAt := some 3,
               txCount := 0 } ∧
    ({ blockNumber := 1, blockHash := "", phase := Phase.finalized,
       proposedAt := 1, votedAt := some 2, finalizedAt := some 3,
       txCount := 0 } : BlockConsensusState).phase = Phase.finalized ∧
    GetBlockPhase (runConsec (fun t => t) (fun _ => "") (fun _ => 0) 0 4)
      (0 + 4) = "proposed" := by
  refine ⟨by decide, rfl, ?_, ?_⟩
  · exact ((consensus_gapfree_phases (fun t => t) (fun _ => "") (fun _ => 0)
      0 4).1 1 _ rfl).1 (by decide)
  · exact (consensus_gapfree_phases (fun t => t) (fun _ => "") (fun _ => 0)
      0 4).2

/-- C2 (corrected): the claim says a block already FINALIZED cannot
return to VOTED.  `OnBlockVoted` performs no monotonicity check: after
blocks 1,2,3 are observed, block 1 is FINALIZED, and `OnBlockVoted(1)`
sets it back to VOTED. -/
theorem voted_demotes_counterexample :
    GetBlockPhase (runOps initTracker
      [TrackerOp.proposed 0 1 "" 0, TrackerOp.proposed 1 2 "" 0,
       TrackerOp.proposed 2 3 "" 0]) 1 = "finalized" ∧
    GetBlockPhase (OnBlockVoted 9 1 (runOps initTracker
      [TrackerOp.proposed 0 1 "" 0, TrackerOp.proposed 1 2 "" 0,
       TrackerOp.proposed 2 3 "" 0])) 1 = "voted" ∧
    ¬ ("voted" = "finalized") := by
  exact ⟨rfl, rfl, by decide⟩

/-- C2 (amended): phase transitions driven by `OnBlockProposed` (with
its automatic propagation) and by `OnBlockFinalized` only move forward
along PROPOSED → VOTED → FINALIZED; but `OnBlockVoted` on a tracked
block sets the phase to VOTED unconditionally, so it returns an
already-FINALIZED block to VOTED. -/
theorem consensus_phase_monotonicity :
    (∀ (ct : ConsensusTracker) (op : TrackerOp),
      (∀ t k, op ≠ TrackerOp.voted t k) →
      ∀ m b b2, lookupBlock ct.blocks m = some b →
        lookupBlock (applyOp ct op).blocks m = some b2 →
        phaseRank b.phase ≤ phaseRank b2.phase) ∧
    (∀ (now n : Nat) (ct : ConsensusTracker) (b : BlockConsensusState),
      lookupBlock ct.blocks n = some b →
      lookupBlock (OnBlockVoted now n ct).blocks n =
        some (forceVoted now b)) := by
  constructor
  · intro ct op hop m b b2 hb hb2
    cases op with
    | proposed now n hs c =>
        simp only [applyOp] at hb2
        exact OnBlockProposed_mono now n hs c ct m b b2 hb hb2
    | voted now n => exact absurd rfl (hop now n)
    | finalized now n =>
        simp only [applyOp] at hb2
        exact OnBlockFinalized_mono now n ct m b b2 hb hb2
  · intro now n ct b hb
    exact OnBlockVoted_sets now n ct b hb

theorem consensus_phase_monotonicity_witness :
    phaseRank (mkProposed 0 1 "" 0).phase ≤
      phaseRank (toFinalized 5 (mkProposed 0 1 "" 0)).phase :=
  consensus_phase_monotonicity.1
    { blocks := [(1, mkProposed 0 1 "" 0)], currentBlock := 1,
      finalizedBlock := 0, maxHistory := 20 }
    (TrackerOp.finalized 5 1)
    (fun _ _ h => TrackerOp.noConfusion h)
    1 (mkProposed 0 1 "" 0) (toFinalized 5 (mkProposed 0 1 "" 0)) rfl rfl

set_option maxRecDepth 10000 in
/-- C3 (corrected): the claim bounds the tracked entries by
`maxHistory` (20).  The eviction threshold is
`currentBlock - maxHistory`, which keeps the 21 block numbers in
`[currentBlock - 20, currentBlock]`: observing blocks 1..21 leaves 21
entries. -/
theorem tracked_blocks_exceed_counterexample :
    (runOps initTracker ((List.range' 1 21).map
      (fun n => TrackerOp.proposed 0 n "" 0))).blocks.length = 21 ∧
    ¬ ((runOps initTracker ((List.range' 1 21).map
      (fun n => TrackerOp.proposed 0 n "" 0))).blocks.length ≤
        initTracker.maxHistory) := by
  exact ⟨by decide, by decide⟩

/-- C3 (amended): after any sequence of tracker operations (block
numbers within the `uint64` range), at most `maxHistory + 1 = 21`
entries are tracked; the bound `maxHistory` itself is exceeded by
exactly one (see the counterexample). -/
theorem tracked_blocks_bound (ops : List TrackerOp)
    (hops : ∀ op ∈ ops, op.blockNum < U64MOD) :
    (runOps initTracker ops).blocks.length ≤ initTracker.maxHistory + 1 := by
  obtain ⟨hwf, hlen⟩ := TrackerInv_runOps ops initTracker TrackerInv_init hops
  rw [hwf.maxHist] at hlen
  exact hlen

set_option maxRecDepth 10000 in
theorem tracked_blocks_bound_witness :
    (runOps initTracker ((List.range' 1 21).map
      (fun n => TrackerOp.proposed 0 n "" 0))).blocks.length ≤
      initTracker.maxHistory + 1 :=
  tracked_blocks_bound ((List.range' 1 21).map
    (fun n => TrackerOp.proposed 0 n "" 0)) (by decide)

end MonadDashboard
